import Mathlib

/-!
# FastFunction: a fixed-capacity, type-erased callable wrapper

A shallow embedding of `include/fastfunction.h`.

The header is generic code over user-supplied callable types, so the model is
parameterised by a table `Γ` of concrete callable types.  Each entry gives what the
C++ type provides: its size and alignment, its copy and move constructors, its call
operator and its destructor, all as transformers of the object's bytes and of a world
`W` (everything outside the wrappers that user code can read or change: heap buffers,
counters, handles).  Each of them is run on an object at an address and receives that
address (its `this` pointer): the header runs them on the slot `&target_`, and moves
slots around by raw copy and `std::swap`, so a type that remembers where it was built
sees the difference.  The slot of a wrapper has the address of the wrapper.

Wrappers live in a store indexed by addresses.  A constructor writes only the members
that the C++ constructor writes; a member it leaves alone keeps whatever the storage
held before (an indeterminate value in C++ terms).  Storage is reused: after a
destructor has run, the bytes of the dead object stay where they were.  Aliasing
(`w = w`) is the same address passed twice.

The record of calls (`State.log`) lists, in order, the calls that the member functions
of the wrapper make into the embedded type: its copy constructor (from the converting
constructor), its destructor (through `destroyer_`), and the initialisation and
destruction of the by-value parameter that `operator=(Callable&&)` passes to the
converting constructor.

The operations are first given for embedded types whose copy constructor returns.  A
copy constructor that throws is treated separately (`ctorCallableThrowing`,
`assignCallableThrowing`), with the same operations on the path without a throw.
-/

namespace FastFunctionModel

/-- Object representation: the bytes of an embedded callable. -/
abbrev Bytes := List Nat

/-- Identifies a concrete callable type; `invoke<C>` and `destroy<C>` are named by it. -/
abbrev TypeId := Nat

/-- Address of a wrapper object. -/
abbrev Addr := Nat

/-- Contents of the slot `target_` (an `aligned_storage<Size, 8>` buffer). -/
abbrev Target := Bytes

/-- A function pointer of type `Invoker`: `none` is `nullptr`, `some c` is `&invoke<c>`. -/
abbrev Invoker := Option TypeId

/-- A function pointer of type `Destroyer`: `none` is `nullptr`, `some c` is `&destroy<c>`. -/
abbrev Destroyer := Option TypeId

/-- What a concrete callable type `Callable` provides to the header.
`RC` is `result_of_t<Callable&(Args...)>`; `conv` is the conversion of `RC` to `R`
(`none` when `R` is not void, not `RC`, and `RC` does not convert to it);
`isFastFunction` is `is_same_v<FastFunction, Callable>`.
`copyCtor dst src b w` is `Callable(const Callable&)` building the object at `dst` from
the object at `src` whose bytes are `b`; `moveCtor dst src b w` is `Callable(Callable&&)`
and is the copy constructor for a type that declares no move constructor;
`call p b a w` is the call operator run on the object at `p` whose bytes are `b`;
`dtor p b w` is the destructor run on the object at `p`. -/
structure Callable (W Args R : Type) where
  RC : Type
  sizeofC : Nat
  alignofC : Nat
  isFastFunction : Bool
  conv : Option (RC → R)
  copyCtor : Addr → Addr → Bytes → W → Bytes × W
  call : Addr → Bytes → Args → W → RC × Bytes × W
  dtor : Addr → Bytes → W → W
  moveCtor : Addr → Addr → Bytes → W → Bytes × W := copyCtor

/-- Calls into the embedded type's special members, recorded for counting:
`copied` is a copy-constructor call building an object at `dst`, `destroyed` is a call
of `destroy<c>` through a destroyer pointer on the slot of the wrapper at `self`,
`moved` is the initialisation of a by-value parameter at `dst` from an rvalue (the
move constructor, or the copy constructor of a type that declares none), and
`parameterDestroyed` is the destructor call that ends a by-value parameter. -/
inductive Event where
  | copied (c : TypeId) (dst : Addr)
  | destroyed (c : TypeId) (self : Addr) (obj : Bytes)
  | moved (c : TypeId) (dst : Addr)
  | parameterDestroyed (c : TypeId) (self : Addr) (obj : Bytes)
deriving DecidableEq, Repr

/-- The data members of `FastFunction<R(Args...), Size>`. -/
structure FastFunction where
  target_ : Target
  invoker_ : Invoker
  destroyer_ : Destroyer
deriving DecidableEq, Repr

/-- Program state: the wrappers in storage, the world of the embedded types, and the
record of copy-constructor and destroyer calls. -/
structure State (W : Type) where
  mem : Addr → FastFunction
  world : W
  log : List Event

/-- Store update at one address. -/
def setMem (m : Addr → FastFunction) (p : Addr) (v : FastFunction) : Addr → FastFunction :=
  fun q => if q = p then v else m q

/-- Write of the member `target_` of the wrapper at `p`. -/
def State.setTarget {W : Type} (s : State W) (p : Addr) (b : Target) : State W :=
  { s with mem := setMem s.mem p { s.mem p with target_ := b } }

/-- Write of the member `invoker_` of the wrapper at `p`. -/
def State.setInvoker {W : Type} (s : State W) (p : Addr) (i : Invoker) : State W :=
  { s with mem := setMem s.mem p { s.mem p with invoker_ := i } }

/-- Write of the member `destroyer_` of the wrapper at `p`. -/
def State.setDestroyer {W : Type} (s : State W) (p : Addr) (d : Destroyer) : State W :=
  { s with mem := setMem s.mem p { s.mem p with destroyer_ := d } }

/-- The value of `alignof(Target)`: the storage is declared with alignment `8ULL`. -/
def alignofTarget : Nat := 8

/-- The value of `sizeof(Target)` for `aligned_storage<Size, 8>::type`: `Size` bytes
padded up to the alignment, as the standard library lays the type out. -/
def sizeofTarget (Size : Nat) : Nat := (Size + 7) / 8 * 8

/-- The `enable_if` condition of the converting constructor (lines 63-67). -/
def selectable {W Args R : Type} (Size : Nat) (C : Callable W Args R) : Bool :=
  C.conv.isSome && !C.isFastFunction &&
    decide (C.alignofC ≤ alignofTarget) && decide (C.sizeofC ≤ sizeofTarget Size)

/-- The explicit conversion to bool: `!!invoker_`. -/
def operatorBool (x : FastFunction) : Bool := x.invoker_.isSome

/-- Default constructor: `invoker_(nullptr), destroyer_(nullptr)`; `target_` is not
written. -/
def ctorDefault {W : Type} (this : Addr) (s : State W) : State W :=
  (s.setInvoker this none).setDestroyer this none

/-- Constructor from `nullptr`: same member initialisers as the default one. -/
def ctorNull {W : Type} (this : Addr) (s : State W) : State W :=
  (s.setInvoker this none).setDestroyer this none

/-- Copy constructor.  There is no member initialiser list; the body writes the three
members only when `x` converts to true, and then copies the slot as raw storage
(`new (&target_) Target(x.target_)`). -/
def ctorCopy {W : Type} (this x : Addr) (s : State W) : State W :=
  if operatorBool (s.mem x) then
    let s1 := s.setTarget this (s.mem x).target_
    let s2 := s1.setInvoker this (s1.mem x).invoker_
    s2.setDestroyer this (s2.mem x).destroyer_
  else s

/-- The member function swap: three `std::swap` calls, member by member. -/
def swap {W : Type} (this x : Addr) (s : State W) : State W :=
  let s1 := (s.setTarget this (s.mem x).target_).setTarget x (s.mem this).target_
  let s2 := (s1.setInvoker this (s1.mem x).invoker_).setInvoker x (s1.mem this).invoker_
  (s2.setDestroyer this (s2.mem x).destroyer_).setDestroyer x (s2.mem this).destroyer_

/-- Move constructor: no member initialisers, body `x.swap(*this)`. -/
def ctorMove {W : Type} (this x : Addr) (s : State W) : State W :=
  swap x this s

/-- Converting constructor from a callable `f` of type `c`: `new (&target_) Callable(f)`
runs the type's copy constructor at the slot, then both pointers are bound to `c`.  Not
selectable (`none`) when the `enable_if` condition fails.  Here `f` is the by-value
parameter object, at address `fa`; how the call site initialises and later destroys
that parameter is outside the constructor body. -/
def ctorCallable {W Args R : Type} (Size : Nat) (Γ : TypeId → Callable W Args R)
    (c : TypeId) (fa : Addr) (f : Bytes) (this : Addr) (s : State W) : Option (State W) :=
  if selectable Size (Γ c) then
    let r := (Γ c).copyCtor this fa f s.world
    let s1 : State W := { s with world := r.2, log := s.log ++ [Event.copied c this] }
    some (((s1.setTarget this r.1).setInvoker this (some c)).setDestroyer this (some c))
  else none

/-- The static member `destroy<Callable>`: runs `~Callable()` on the slot, which is at
address `p`. -/
def destroy {W Args R : Type} (Γ : TypeId → Callable W Args R) (c : TypeId)
    (p : Addr) (dest : Target) (w : W) : W :=
  (Γ c).dtor p dest w

/-- The static member `invoke<Callable>`: calls the object in the slot, which is at
address `p`, and converts the result to `R`. -/
def invoke {W Args R : Type} (Γ : TypeId → Callable W Args R) (c : TypeId)
    (p : Addr) (target : Target) (a : Args) (w : W) : Option (R × Target × W) :=
  match (Γ c).conv with
  | none => none
  | some k =>
    let r := (Γ c).call p target a w
    some (k r.1, r.2.1, r.2.2)

/-- The call `destroyer_(target_)` on the wrapper at `this`; a call through a null
pointer has no defined result (`none`). -/
def callDestroyer {W Args R : Type} (Γ : TypeId → Callable W Args R) (this : Addr)
    (s : State W) : Option (State W) :=
  match (s.mem this).destroyer_ with
  | none => none
  | some c =>
    some { s with
      world := destroy Γ c this (s.mem this).target_ s.world
      log := s.log ++ [Event.destroyed c this (s.mem this).target_] }

/-- Destructor: `if (destroyer_) destroyer_(target_);`. -/
def dtor {W Args R : Type} (Γ : TypeId → Callable W Args R) (this : Addr)
    (s : State W) : State W :=
  match (s.mem this).destroyer_ with
  | none => s
  | some c =>
    { s with
      world := destroy Γ c this (s.mem this).target_ s.world
      log := s.log ++ [Event.destroyed c this (s.mem this).target_] }

/-- Copy assignment: `FastFunction(x).swap(*this)`; the temporary lives at `tmp` and is
destroyed at the end of the statement. -/
def assignCopy {W Args R : Type} (Γ : TypeId → Callable W Args R) (this x tmp : Addr)
    (s : State W) : State W :=
  dtor Γ tmp (swap tmp this (ctorCopy tmp x s))

/-- Move assignment: `FastFunction(std::move(x)).swap(*this)`. -/
def assignMove {W Args R : Type} (Γ : TypeId → Callable W Args R) (this x tmp : Addr)
    (s : State W) : State W :=
  dtor Γ tmp (swap tmp this (ctorMove tmp x s))

/-- Assignment from `nullptr`: tests `invoker_`, calls `destroyer_`, clears both. -/
def assignNull {W Args R : Type} (Γ : TypeId → Callable W Args R) (this : Addr)
    (s : State W) : Option (State W) :=
  if (s.mem this).invoker_.isSome then
    (callDestroyer Γ this s).map
      (fun s1 => (s1.setInvoker this none).setDestroyer this none)
  else some s

/-- Initialisation of the converting constructor's by-value parameter, at address
`param`, from the argument `f` at `fa`: the move constructor for an rvalue argument,
the copy constructor for an lvalue.  Returns the bytes of the parameter. -/
def initParameter {W Args R : Type} (Γ : TypeId → Callable W Args R) (c : TypeId)
    (rvalue : Bool) (param fa : Addr) (f : Bytes) (s : State W) : Bytes × State W :=
  if rvalue then
    ((( Γ c).moveCtor param fa f s.world).1,
      { s with world := ((Γ c).moveCtor param fa f s.world).2,
               log := s.log ++ [Event.moved c param] })
  else
    (((Γ c).copyCtor param fa f s.world).1,
      { s with world := ((Γ c).copyCtor param fa f s.world).2,
               log := s.log ++ [Event.copied c param] })

/-- End of the by-value parameter at `param`, whose bytes are `pb`: its destructor
runs. -/
def destroyParameter {W Args R : Type} (Γ : TypeId → Callable W Args R) (c : TypeId)
    (param : Addr) (pb : Bytes) (s : State W) : State W :=
  { s with world := (Γ c).dtor param pb s.world,
           log := s.log ++ [Event.parameterDestroyed c param pb] }

/-- Assignment from a callable `f` at `fa`:
`FastFunction(std::forward<Callable>(f)).swap(*this)`.  The expression initialises the
by-value parameter of the converting constructor from `f` (at `param`), the
constructor copies that parameter into the slot of the temporary (at `tmp`), the
temporary is swapped with `*this` and destroyed.  The parameter ends either when the
constructor returns (`calleeCleanup`) or at the end of the full expression, after the
temporary; the language leaves that to the implementation.  The overload for
`std::reference_wrapper` has the same body, with an lvalue argument. -/
def assignCallable {W Args R : Type} (Size : Nat) (Γ : TypeId → Callable W Args R)
    (c : TypeId) (rvalue calleeCleanup : Bool) (fa : Addr) (f : Bytes)
    (this tmp param : Addr) (s : State W) : Option (State W) :=
  (ctorCallable Size Γ c param (initParameter Γ c rvalue param fa f s).1 tmp
      (initParameter Γ c rvalue param fa f s).2).map
    (fun s1 =>
      if calleeCleanup then
        dtor Γ tmp (swap tmp this
          (destroyParameter Γ c param (initParameter Γ c rvalue param fa f s).1 s1))
      else
        destroyParameter Γ c param (initParameter Γ c rvalue param fa f s).1
          (dtor Γ tmp (swap tmp this s1)))

/-- The call operator: `invoker_(target_, args...)`; the callee works on the slot in
place.  A call through a null invoker has no defined result. -/
def operatorCall {W Args R : Type} (Γ : TypeId → Callable W Args R) (this : Addr)
    (a : Args) (s : State W) : Option (R × State W) :=
  match (s.mem this).invoker_ with
  | none => none
  | some c =>
    (invoke Γ c this (s.mem this).target_ a s.world).map
      (fun r => (r.1, { s.setTarget this r.2.1 with world := r.2.2 }))

/-! ## State predicates -/

/-- The wrapper state invariant on the two pointers: both null, or both bound to the
same concrete type. -/
def Inv (x : FastFunction) : Prop := x.invoker_ = x.destroyer_

instance (x : FastFunction) : Decidable (Inv x) :=
  inferInstanceAs (Decidable (x.invoker_ = x.destroyer_))

/-- Both pointers are bound to type `c`. -/
def BoundTo (c : TypeId) (x : FastFunction) : Prop :=
  x.invoker_ = some c ∧ x.destroyer_ = some c

instance (c : TypeId) (x : FastFunction) : Decidable (BoundTo c x) :=
  inferInstanceAs (Decidable (x.invoker_ = some c ∧ x.destroyer_ = some c))

/-- Both pointers are null. -/
def IsEmpty (x : FastFunction) : Prop :=
  x.invoker_ = none ∧ x.destroyer_ = none

instance (x : FastFunction) : Decidable (IsEmpty x) :=
  inferInstanceAs (Decidable (x.invoker_ = none ∧ x.destroyer_ = none))

/-- Number of copy-constructor calls of embedded types in a record. -/
def copyCount (l : List Event) : Nat :=
  (l.filter (fun e => match e with | Event.copied _ _ => true | _ => false)).length

/-- Number of destroyer calls in a record. -/
def destroyCount (l : List Event) : Nat :=
  (l.filter (fun e => match e with | Event.destroyed _ _ _ => true | _ => false)).length

/-! ## The callable types of `test/test.cpp` -/

/-- The type `int (*)(int, int)` holding the address of `sum`: calling it adds. -/
def sumPtrType : Callable Unit (Int × Int) Int where
  RC := Int
  sizeofC := 8
  alignofC := 8
  isFastFunction := false
  conv := some id
  copyCtor := fun _ _ b w => (b, w)
  call := fun _ b a w => (a.1 + a.2, b, w)
  dtor := fun _ _ w => w

/-- The empty class `Functor`, whose call operator returns `i + i`. -/
def functorType : Callable Unit Int Int where
  RC := Int
  sizeofC := 1
  alignofC := 1
  isFastFunction := false
  conv := some id
  copyCtor := fun _ _ b w => (b, w)
  call := fun _ b i w => (i + i, b, w)
  dtor := fun _ _ w => w

/-- The object `std::bind(&Foo::sum, foo, _1, n)`: a member pointer, a `Foo` and the
bound `int`, kept here as the one byte list entry `n`; calling it with `i` returns
`foo.sum(i, n)`, that is `i + n`. -/
def bindMemberType : Callable Unit Int Int where
  RC := Int
  sizeofC := 24
  alignofC := 8
  isFastFunction := false
  conv := some id
  copyCtor := fun _ _ b w => (b, w)
  call := fun _ b i w => (i + (b.headD 0 : Nat), b, w)
  dtor := fun _ _ w => w

/-- The member function `Foo::sum`. -/
def Foo.sum (a b : Int) : Int := a + b

/-- A state with every wrapper storage zeroed. -/
def zeroState : State Unit where
  mem := fun _ => { target_ := [], invoker_ := none, destroyer_ := none }
  world := ()
  log := []

/-! ## A callable type that owns a resource -/

/-- The world of `ownerType`: the identifier the next allocation returns, and the
identifiers of the heap buffers that are alive. -/
structure Heap where
  next : Nat
  live : List Nat
deriving DecidableEq, Repr

/-- A function object that owns a heap buffer (for instance a closure capturing a
container by value).  Its bytes are the buffer's identifier.  The copy constructor
allocates a new buffer, the destructor frees the buffer, and a call returns its
argument when the buffer is alive and `none` when the buffer has been freed. -/
def ownerType : Callable Heap Int (Option Int) where
  RC := Option Int
  sizeofC := 8
  alignofC := 8
  isFastFunction := false
  conv := some id
  copyCtor := fun _ _ _ h => ([h.next], { next := h.next + 1, live := h.next :: h.live })
  call := fun _ b i h => (if b.headD 0 ∈ h.live then some i else none, b, h)
  dtor := fun _ b h => { h with live := h.live.erase (b.headD 0) }

/-- The table of instantiations used in the scenarios below: every type is `ownerType`. -/
def ownerΓ : TypeId → Callable Heap Int (Option Int) := fun _ => ownerType

/-- Zeroed wrapper storage, one live buffer (number 1, owned by the caller's function
object, which the scenarios below keep at address 10), nothing recorded. -/
def heapState : State Heap where
  mem := fun _ => { target_ := [], invoker_ := none, destroyer_ := none }
  world := { next := 2, live := [1] }
  log := []

/-- Wrapper storage whose previous bytes read as a non-null invoker and a null
destroyer. -/
def staleState : State Heap where
  mem := fun _ => { target_ := [], invoker_ := some 0, destroyer_ := none }
  world := { next := 2, live := [1] }
  log := []

/-- The wrapper `w` at address 0 bound to a copy of the caller's function object. -/
def boundState : State Heap :=
  (ctorCallable 64 ownerΓ 0 10 [1] 0 heapState).getD heapState

/-- A wrapper was constructed at address 1 from the caller's function object and then
destroyed; its storage is free for reuse and still holds its bytes. -/
def reusedState : State Heap :=
  dtor ownerΓ 1 ((ctorCallable 64 ownerΓ 0 10 [1] 1 heapState).getD heapState)

/-- After `reusedState`, the wrapper `w1` is bound at address 0. -/
def reusedBoundState : State Heap :=
  (ctorCallable 64 ownerΓ 0 10 [1] 0 reusedState).getD reusedState

/-- The wrapper of `test.cpp` line 54 at address 0: `testFunctor = Functor()`. -/
def functorState : State Unit :=
  (ctorCallable 64 (fun _ => functorType) 0 10 [0] 0 zeroState).getD zeroState

/-- The wording of the spec for assignment from a callable: construct a new wrapper
from the value (the expression `FastFunction(f)`, building the wrapper at `src` through
the same by-value parameter at `param`), then move-assign it into the wrapper at
`this` (the move assignment builds its own temporary at `tmp2`).  The parameter ends
when the constructor returns or at the end of the full expression, as in
`assignCallable`. -/
def constructThenMoveAssign {W Args R : Type} (Size : Nat) (Γ : TypeId → Callable W Args R)
    (c : TypeId) (rvalue calleeCleanup : Bool) (fa : Addr) (f : Bytes)
    (this src tmp2 param : Addr) (s : State W) : Option (State W) :=
  (ctorCallable Size Γ c param (initParameter Γ c rvalue param fa f s).1 src
      (initParameter Γ c rvalue param fa f s).2).map
    (fun s1 =>
      if calleeCleanup then
        assignMove Γ this src tmp2
          (destroyParameter Γ c param (initParameter Γ c rvalue param fa f s).1 s1)
      else
        destroyParameter Γ c param (initParameter Γ c rvalue param fa f s).1
          (assignMove Γ this src tmp2 s1))

/-! ## Exceptions thrown by the embedded type's copy constructor -/

/-- How a member function that runs the embedded type's copy constructor ends: it
returns, or it exits by the exception the copy constructor threw. -/
inductive Outcome (W : Type) where
  | returned (s : State W)
  | threw (s : State W)

/-- The converting constructor when `Callable(f)` can throw.  `throws c f w = some w1`
says that copy-constructing `f` of type `c` in world `w` throws and leaves the world
`w1`.  The placement-new is the first statement of the body, so the exception leaves
the constructor before any member is written; otherwise the constructor runs as
`ctorCallable`.  As there, `f` at `fa` is the constructor's parameter object. -/
def ctorCallableThrowing {W Args R : Type} (Size : Nat) (Γ : TypeId → Callable W Args R)
    (throws : TypeId → Bytes → W → Option W) (c : TypeId) (fa : Addr) (f : Bytes)
    (this : Addr) (s : State W) : Option (Outcome W) :=
  if selectable Size (Γ c) then
    match throws c f s.world with
    | some w1 => some (Outcome.threw { s with world := w1 })
    | none => (ctorCallable Size Γ c fa f this s).map Outcome.returned
  else none

/-- Assignment from a callable when `Callable(f)` can throw, from the point where the
constructor of the temporary runs on its parameter `f` (at `fa`).  An exception from
that constructor propagates out of `operator=`: `swap` is not reached, and the
temporary, never completely constructed, has no destructor call. -/
def assignCallableThrowing {W Args R : Type} (Size : Nat) (Γ : TypeId → Callable W Args R)
    (throws : TypeId → Bytes → W → Option W) (c : TypeId) (fa : Addr) (f : Bytes)
    (this tmp : Addr) (s : State W) : Option (Outcome W) :=
  match ctorCallableThrowing Size Γ throws c fa f tmp s with
  | none => none
  | some (Outcome.threw s1) => some (Outcome.threw s1)
  | some (Outcome.returned s1) => some (Outcome.returned (dtor Γ tmp (swap tmp this s1)))

/-- A closure that captures two pointers: 16 bytes, alignment 8; calling it returns
its argument. -/
def twoPointerType : Callable Unit Int Int where
  RC := Int
  sizeofC := 16
  alignofC := 8
  isFastFunction := false
  conv := some id
  copyCtor := fun _ _ b w => (b, w)
  call := fun _ b i w => (i, b, w)
  dtor := fun _ _ w => w

/-! ## Sequences of operations on one wrapper -/

/-- An operation of the program that invokes or mutates one wrapper `w`:
* `call a`: the invocation `w(a)`;
* `reset`: `w = nullptr`;
* `assignCallable`: `w = f` for a callable `f` at `fa`, with the temporary at `tmp`
  and the parameter at `param`;
* `assignCopy x tmp`: `w = x` for the wrapper at `x`;
* `assignMove x tmp`: `w = std::move(x)`;
* `moveConstruct y`: `FastFunction y(std::move(w))`, which swaps `w` with the new
  object;
* `moveAssignTo y tmp`: `y = std::move(w)`;
* `destroy`: the destructor of `w`. -/
inductive Mutation (Args : Type) where
  | call (a : Args)
  | reset
  | assignCallable (c : TypeId) (rvalue calleeCleanup : Bool) (fa : Addr) (f : Bytes)
      (tmp param : Addr)
  | assignCopy (x tmp : Addr)
  | assignMove (x tmp : Addr)
  | moveConstruct (y : Addr)
  | moveAssignTo (y tmp : Addr)
  | destroy

/-- The operation writes no member of the wrapper at `q`: `q` is none of the other
wrappers that the operation writes (its temporary, the source of a move, the
destination of a move out of `w`). -/
def Mutation.avoids {Args : Type} (q : Addr) : Mutation Args → Prop
  | Mutation.call _ => True
  | Mutation.reset => True
  | Mutation.assignCallable _ _ _ _ _ tmp _ => tmp ≠ q
  | Mutation.assignCopy _ tmp => tmp ≠ q
  | Mutation.assignMove x tmp => x ≠ q ∧ tmp ≠ q
  | Mutation.moveConstruct y => y ≠ q
  | Mutation.moveAssignTo y tmp => y ≠ q ∧ tmp ≠ q
  | Mutation.destroy => True

/-- One operation on the wrapper at `p`. -/
def applyMutation {W Args R : Type} (Size : Nat) (Γ : TypeId → Callable W Args R)
    (p : Addr) : Mutation Args → State W → Option (State W)
  | Mutation.call a, s => (operatorCall Γ p a s).map Prod.snd
  | Mutation.reset, s => assignNull Γ p s
  | Mutation.assignCallable c rvalue calleeCleanup fa f tmp param, s =>
    assignCallable Size Γ c rvalue calleeCleanup fa f p tmp param s
  | Mutation.assignCopy x tmp, s => some (assignCopy Γ p x tmp s)
  | Mutation.assignMove x tmp, s => some (assignMove Γ p x tmp s)
  | Mutation.moveConstruct y, s => some (ctorMove y p s)
  | Mutation.moveAssignTo y tmp, s => some (assignMove Γ y p tmp s)
  | Mutation.destroy, s => some (dtor Γ p s)

/-- A sequence of operations on the wrapper at `p`, in order. -/
def applyMutations {W Args R : Type} (Size : Nat) (Γ : TypeId → Callable W Args R)
    (p : Addr) : List (Mutation Args) → State W → Option (State W)
  | [], s => some s
  | m :: ms, s => (applyMutation Size Γ p m s).bind (applyMutations Size Γ p ms)

/-- The results of consecutive invocations of the wrapper at `q`, one per argument. -/
def results {W Args R : Type} (Γ : TypeId → Callable W Args R) (q : Addr) :
    List Args → State W → Option (List R)
  | [], _ => some []
  | a :: as, s =>
    match operatorCall Γ q a s with
    | none => none
    | some (r, s1) => (results Γ q as s1).map (fun rs => r :: rs)

/-- A callable type whose state lives entirely in its own bytes: what a call returns
and the bytes it leaves depend on the bytes and the arguments only, neither on the
world nor on the address the object is at. -/
def SelfContained {W Args R : Type} (C : Callable W Args R) : Prop :=
  ∀ (p q : Addr) (b : Bytes) (a : Args) (w w1 : W),
    (C.call p b a w).1 = (C.call q b a w1).1 ∧
    (C.call p b a w).2.1 = (C.call q b a w1).2.1

/-- A function object that remembers where it was built: its one data member is a
pointer to itself, set to `this` by every constructor (`Home() : self(this)`,
`Home(const Home&) : self(this)`), and a call returns 1 when the object is still at
that address and 0 when its bytes have been put somewhere else. -/
def homeType : Callable Unit Int Int where
  RC := Int
  sizeofC := 8
  alignofC := 8
  isFastFunction := false
  conv := some id
  copyCtor := fun dst _ _ w => ([dst], w)
  call := fun p b _ w => (if b.headD p = p then 1 else 0, b, w)
  dtor := fun _ _ w => w

/-- The wrapper `w1` at address 0 bound to a `homeType` object, built in place from
the caller's object at address 10. -/
def homeState : State Unit :=
  (ctorCallable 64 (fun _ => homeType) 0 10 [10] 0 zeroState).getD zeroState

/-- A counting function object: its one data member counts the calls, and a call
returns the new count. -/
def counterType : Callable Unit Unit Nat where
  RC := Nat
  sizeofC := 4
  alignofC := 4
  isFastFunction := false
  conv := some id
  copyCtor := fun _ _ b w => (b, w)
  call := fun _ b _ w => (b.headD 0 + 1, [b.headD 0 + 1], w)
  dtor := fun _ _ w => w

/-- The wrapper `w1` at address 0 bound to a counting function object that starts at
zero. -/
def counterState : State Unit :=
  (ctorCallable 64 (fun _ => counterType) 0 10 [0] 0 zeroState).getD zeroState

/-! ## The weaker pointer invariant -/

/-- The two pointers are both null or both non-null. -/
def BothOrNeither (x : FastFunction) : Prop :=
  x.invoker_.isSome = x.destroyer_.isSome

instance (x : FastFunction) : Decidable (BothOrNeither x) :=
  inferInstanceAs (Decidable (x.invoker_.isSome = x.destroyer_.isSome))


/-! # Theorems -/

/-! ## Lemmas on the store and on the operations -/

@[simp] theorem setMem_same (m : Addr → FastFunction) (p : Addr) (v : FastFunction) :
    setMem m p v p = v := by
  simp [setMem]

@[simp] theorem setMem_other (m : Addr → FastFunction) (p q : Addr) (v : FastFunction)
    (h : q ≠ p) : setMem m p v q = m q := by
  simp [setMem, h]

theorem swap_world {W : Type} (this x : Addr) (s : State W) :
    (swap this x s).world = s.world := rfl

theorem swap_log {W : Type} (this x : Addr) (s : State W) :
    (swap this x s).log = s.log := rfl

theorem swap_mem_this {W : Type} (this x : Addr) (s : State W) (h : this ≠ x) :
    (swap this x s).mem this = s.mem x := by
  have h2 : x ≠ this := fun e => h e.symm
  simp [swap, State.setTarget, State.setInvoker, State.setDestroyer, setMem, h, h2]

theorem swap_mem_x {W : Type} (this x : Addr) (s : State W) (h : this ≠ x) :
    (swap this x s).mem x = s.mem this := by
  have h2 : x ≠ this := fun e => h e.symm
  simp [swap, State.setTarget, State.setInvoker, State.setDestroyer, setMem, h, h2]

theorem swap_mem_other {W : Type} (this x q : Addr) (s : State W) (h1 : q ≠ this)
    (h2 : q ≠ x) : (swap this x s).mem q = s.mem q := by
  simp [swap, State.setTarget, State.setInvoker, State.setDestroyer, setMem, h1, h2]

theorem swap_self_mem {W : Type} (p q : Addr) (s : State W) :
    (swap p p s).mem q = s.mem q := by
  by_cases h : q = p
  · subst h
    simp [swap, State.setTarget, State.setInvoker, State.setDestroyer, setMem]
  · simp [swap, State.setTarget, State.setInvoker, State.setDestroyer, setMem, h]

theorem ctorCopy_world {W : Type} (this x : Addr) (s : State W) :
    (ctorCopy this x s).world = s.world := by
  unfold ctorCopy; split <;> rfl

theorem ctorCopy_log {W : Type} (this x : Addr) (s : State W) :
    (ctorCopy this x s).log = s.log := by
  unfold ctorCopy; split <;> rfl

theorem ctorCopy_mem_this {W : Type} (this x : Addr) (s : State W)
    (hb : operatorBool (s.mem x) = true) : (ctorCopy this x s).mem this = s.mem x := by
  by_cases h : x = this
  · subst h
    simp [ctorCopy, hb, State.setTarget, State.setInvoker, State.setDestroyer, setMem]
  · simp [ctorCopy, hb, State.setTarget, State.setInvoker, State.setDestroyer, setMem, h]

theorem ctorCopy_mem_other {W : Type} (this x q : Addr) (s : State W) (h : q ≠ this) :
    (ctorCopy this x s).mem q = s.mem q := by
  unfold ctorCopy
  split
  · simp [State.setTarget, State.setInvoker, State.setDestroyer, setMem, h]
  · rfl

theorem ctorCopy_of_empty {W : Type} (this x : Addr) (s : State W)
    (hb : operatorBool (s.mem x) = false) : ctorCopy this x s = s := by
  simp [ctorCopy, hb]

theorem dtor_mem {W Args R : Type} (Γ : TypeId → Callable W Args R) (p : Addr)
    (s : State W) : (dtor Γ p s).mem = s.mem := by
  unfold dtor; split <;> rfl

theorem dtor_of_null {W Args R : Type} (Γ : TypeId → Callable W Args R) (p : Addr)
    (s : State W) (h : (s.mem p).destroyer_ = none) : dtor Γ p s = s := by
  simp [dtor, h]

theorem dtor_log_of_bound {W Args R : Type} (Γ : TypeId → Callable W Args R) (p : Addr)
    (s : State W) (c : TypeId) (h : (s.mem p).destroyer_ = some c) :
    (dtor Γ p s).log = s.log ++ [Event.destroyed c p (s.mem p).target_] := by
  simp [dtor, h]

theorem dtor_world_of_bound {W Args R : Type} (Γ : TypeId → Callable W Args R) (p : Addr)
    (s : State W) (c : TypeId) (h : (s.mem p).destroyer_ = some c) :
    (dtor Γ p s).world = (Γ c).dtor p (s.mem p).target_ s.world := by
  simp [dtor, h, destroy]

theorem copyCount_append (l m : List Event) :
    copyCount (l ++ m) = copyCount l + copyCount m := by
  simp [copyCount]

theorem destroyCount_append (l m : List Event) :
    destroyCount (l ++ m) = destroyCount l + destroyCount m := by
  simp [destroyCount]

theorem ctorCallable_some {W Args R : Type} (Size : Nat) (Γ : TypeId → Callable W Args R)
    (c : TypeId) (fa : Addr) (f : Bytes) (p : Addr) (s : State W)
    (hsel : selectable Size (Γ c) = true) :
    ∃ s1, ctorCallable Size Γ c fa f p s = some s1 ∧
      s1.mem p = { target_ := ((Γ c).copyCtor p fa f s.world).1, invoker_ := some c,
                   destroyer_ := some c } ∧
      (∀ q, q ≠ p → s1.mem q = s.mem q) ∧
      s1.world = ((Γ c).copyCtor p fa f s.world).2 ∧
      s1.log = s.log ++ [Event.copied c p] := by
  refine ⟨((({ s with
      world := ((Γ c).copyCtor p fa f s.world).2
      log := s.log ++ [Event.copied c p] } : State W).setTarget p
        ((Γ c).copyCtor p fa f s.world).1).setInvoker p (some c)).setDestroyer p (some c),
    by simp only [ctorCallable, hsel, if_true], ?_, ?_, rfl, rfl⟩
  · simp [State.setTarget, State.setInvoker, State.setDestroyer]
  · intro q hq
    simp [State.setTarget, State.setInvoker, State.setDestroyer, hq]

theorem ctorCallable_mem_other {W Args R : Type} (Size : Nat)
    (Γ : TypeId → Callable W Args R) (c : TypeId) (fa : Addr) (f : Bytes) (p q : Addr)
    (s s1 : State W) (h : ctorCallable Size Γ c fa f p s = some s1) (hq : q ≠ p) :
    s1.mem q = s.mem q := by
  unfold ctorCallable at h
  by_cases hsel : selectable Size (Γ c) = true
  · simp only [hsel, if_true, Option.some.injEq] at h
    rw [← h]
    simp [State.setTarget, State.setInvoker, State.setDestroyer, hq]
  · simp [hsel] at h

theorem selectable_conv {W Args R : Type} (Size : Nat) (C : Callable W Args R)
    (hsel : selectable Size C = true) : ∃ k, C.conv = some k := by
  have hk : (C.conv).isSome = true := by
    simp only [selectable, Bool.and_eq_true] at hsel
    exact hsel.1.1.1
  exact Option.isSome_iff_exists.mp hk

theorem operatorCall_of_bound {W Args R : Type} (Γ : TypeId → Callable W Args R)
    (this : Addr) (a : Args) (s : State W) (c : TypeId) (k : (Γ c).RC → R)
    (hk : (Γ c).conv = some k) (hi : (s.mem this).invoker_ = some c) :
    (operatorCall Γ this a s).map Prod.fst
      = some (k ((Γ c).call this (s.mem this).target_ a s.world).1) := by
  simp [operatorCall, hi, invoke, hk]

theorem initParameter_mem {W Args R : Type} (Γ : TypeId → Callable W Args R) (c : TypeId)
    (rvalue : Bool) (param fa : Addr) (f : Bytes) (s : State W) :
    (initParameter Γ c rvalue param fa f s).2.mem = s.mem := by
  unfold initParameter; split <;> rfl

theorem initParameter_log {W Args R : Type} (Γ : TypeId → Callable W Args R) (c : TypeId)
    (rvalue : Bool) (param fa : Addr) (f : Bytes) (s : State W) :
    (initParameter Γ c rvalue param fa f s).2.log
      = s.log ++ [if rvalue then Event.moved c param else Event.copied c param] := by
  unfold initParameter; split <;> simp_all

theorem destroyParameter_mem {W Args R : Type} (Γ : TypeId → Callable W Args R)
    (c : TypeId) (param : Addr) (pb : Bytes) (s : State W) :
    (destroyParameter Γ c param pb s).mem = s.mem := rfl

theorem destroyParameter_log {W Args R : Type} (Γ : TypeId → Callable W Args R)
    (c : TypeId) (param : Addr) (pb : Bytes) (s : State W) :
    (destroyParameter Γ c param pb s).log
      = s.log ++ [Event.parameterDestroyed c param pb] := rfl

theorem swap_destroyParameter_mem {W Args R : Type} (Γ : TypeId → Callable W Args R)
    (c : TypeId) (param : Addr) (pb : Bytes) (p q : Addr) (s : State W) :
    (swap p q (destroyParameter Γ c param pb s)).mem = (swap p q s).mem := rfl

theorem swap_destroyParameter_log {W Args R : Type} (Γ : TypeId → Callable W Args R)
    (c : TypeId) (param : Addr) (pb : Bytes) (p q : Addr) (s : State W) :
    (swap p q (destroyParameter Γ c param pb s)).log
      = s.log ++ [Event.parameterDestroyed c param pb] := rfl

theorem assignCallable_mem_this {W Args R : Type} (Size : Nat)
    (Γ : TypeId → Callable W Args R) (c : TypeId) (rvalue calleeCleanup : Bool)
    (fa : Addr) (f : Bytes) (this tmp param : Addr) (s : State W)
    (hsel : selectable Size (Γ c) = true) (ht : tmp ≠ this) :
    ∃ s1, assignCallable Size Γ c rvalue calleeCleanup fa f this tmp param s = some s1 ∧
      s1.mem this =
        { target_ := ((Γ c).copyCtor tmp param (initParameter Γ c rvalue param fa f s).1
            (initParameter Γ c rvalue param fa f s).2.world).1,
          invoker_ := some c, destroyer_ := some c } := by
  obtain ⟨sA, hA, hAp, _, _, _⟩ := ctorCallable_some Size Γ c param
    (initParameter Γ c rvalue param fa f s).1 tmp (initParameter Γ c rvalue param fa f s).2
    hsel
  cases calleeCleanup with
  | true =>
    refine ⟨dtor Γ tmp (swap tmp this
      (destroyParameter Γ c param (initParameter Γ c rvalue param fa f s).1 sA)),
      by simp [assignCallable, hA], ?_⟩
    rw [dtor_mem, swap_destroyParameter_mem, swap_mem_x tmp this sA ht, hAp]
  | false =>
    refine ⟨destroyParameter Γ c param (initParameter Γ c rvalue param fa f s).1
      (dtor Γ tmp (swap tmp this sA)), by simp [assignCallable, hA], ?_⟩
    rw [destroyParameter_mem, dtor_mem, swap_mem_x tmp this sA ht, hAp]

theorem assignCallable_mem_other {W Args R : Type} (Size : Nat)
    (Γ : TypeId → Callable W Args R) (c : TypeId) (rvalue calleeCleanup : Bool)
    (fa : Addr) (f : Bytes) (this tmp param q : Addr) (s s1 : State W)
    (h : assignCallable Size Γ c rvalue calleeCleanup fa f this tmp param s = some s1)
    (hq : q ≠ this) (hqt : q ≠ tmp) : s1.mem q = s.mem q := by
  unfold assignCallable at h
  simp only [Option.map_eq_some'] at h
  obtain ⟨sA, hA, hs⟩ := h
  have hAq := ctorCallable_mem_other Size Γ c param _ tmp q _ sA hA hqt
  rw [initParameter_mem] at hAq
  cases calleeCleanup with
  | true =>
    simp only [if_true] at hs
    rw [← hs, dtor_mem, swap_destroyParameter_mem, swap_mem_other tmp this q sA hqt hq, hAq]
  | false =>
    simp only [Bool.false_eq_true, if_false] at hs
    rw [← hs, destroyParameter_mem, dtor_mem, swap_mem_other tmp this q sA hqt hq, hAq]

theorem assignCallable_log {W Args R : Type} (Size : Nat)
    (Γ : TypeId → Callable W Args R) (c : TypeId) (rvalue calleeCleanup : Bool)
    (fa : Addr) (f : Bytes) (this tmp param : Addr) (s s1 : State W)
    (h : assignCallable Size Γ c rvalue calleeCleanup fa f this tmp param s = some s1)
    (hinv : Inv (s.mem this)) (ht : tmp ≠ this) :
    s1.log = s.log ++
      [if rvalue then Event.moved c param else Event.copied c param, Event.copied c tmp]
      ++ (if calleeCleanup then
            Event.parameterDestroyed c param (initParameter Γ c rvalue param fa f s).1 ::
              (match (s.mem this).invoker_ with
               | none => []
               | some d => [Event.destroyed d tmp (s.mem this).target_])
          else
            (match (s.mem this).invoker_ with
             | none => []
             | some d => [Event.destroyed d tmp (s.mem this).target_]) ++
              [Event.parameterDestroyed c param (initParameter Γ c rvalue param fa f s).1]) := by
  unfold assignCallable at h
  simp only [Option.map_eq_some'] at h
  obtain ⟨sA, hA, hs⟩ := h
  have hsel : selectable Size (Γ c) = true := by
    by_cases hsel : selectable Size (Γ c) = true
    · exact hsel
    · simp [ctorCallable, hsel] at hA
  obtain ⟨sB, hB, _, hBq, _, hBl⟩ := ctorCallable_some Size Γ c param
    (initParameter Γ c rvalue param fa f s).1 tmp (initParameter Γ c rvalue param fa f s).2
    hsel
  have hAB : sA = sB := by rw [hA] at hB; exact Option.some.inj hB
  subst hAB
  have hAthis : sA.mem this = s.mem this := by
    rw [hBq this (Ne.symm ht), initParameter_mem]
  have htmp : (swap tmp this sA).mem tmp = s.mem this := by
    rw [swap_mem_this tmp this sA ht, hAthis]
  unfold Inv at hinv
  cases hi : (s.mem this).invoker_ with
  | none =>
    have hd : (s.mem this).destroyer_ = none := by rw [← hinv, hi]
    cases calleeCleanup with
    | true =>
      simp only [if_true] at hs
      rw [← hs, dtor_of_null Γ tmp _
        (by rw [swap_destroyParameter_mem, htmp]; exact hd), swap_destroyParameter_log,
        hBl, initParameter_log]
      simp
    | false =>
      simp only [Bool.false_eq_true, if_false] at hs
      rw [← hs, destroyParameter_log, dtor_of_null Γ tmp _ (by rw [htmp]; exact hd),
        swap_log, hBl, initParameter_log]
      simp
  | some d =>
    have hd : (s.mem this).destroyer_ = some d := by rw [← hinv, hi]
    cases calleeCleanup with
    | true =>
      simp only [if_true] at hs
      rw [← hs, dtor_log_of_bound Γ tmp _ d
        (by rw [swap_destroyParameter_mem, htmp]; exact hd), swap_destroyParameter_log,
        swap_destroyParameter_mem, htmp, hBl, initParameter_log]
      simp
    | false =>
      simp only [Bool.false_eq_true, if_false] at hs
      rw [← hs, destroyParameter_log, dtor_log_of_bound Γ tmp _ d (by rw [htmp]; exact hd),
        swap_log, htmp, hBl, initParameter_log]
      simp

/-! ## C1: round-trip invocation -/

/-- C1: for every callable type `c` that the converting constructor accepts, every
object `f` of that type (the constructor's by-value parameter, at address `fa`) and
every argument `a`, constructing the wrapper from `f` and invoking it on `a` succeeds
and returns what calling `f` on `a` returns at that point, converted to `R`.  The
wrapper stores a copy of `f` made in its slot by the type's own copy constructor and
calls it there, so the statement assumes what CopyConstructible means: that copy calls
like `f`. -/
theorem round_trip_invocation {W Args R : Type} (Size : Nat)
    (Γ : TypeId → Callable W Args R) (c : TypeId) (fa : Addr) (f : Bytes) (a : Args)
    (this : Addr) (s : State W)
    (hsel : selectable Size (Γ c) = true)
    (hcopy : ((Γ c).call this ((Γ c).copyCtor this fa f s.world).1 a
        ((Γ c).copyCtor this fa f s.world).2).1
      = ((Γ c).call fa f a ((Γ c).copyCtor this fa f s.world).2).1) :
    ∃ k, (Γ c).conv = some k ∧
      ((ctorCallable Size Γ c fa f this s).bind (operatorCall Γ this a)).map Prod.fst
        = some (k ((Γ c).call fa f a ((Γ c).copyCtor this fa f s.world).2).1) := by
  have hk : ((Γ c).conv).isSome = true := by
    simp only [selectable, Bool.and_eq_true] at hsel
    exact hsel.1.1.1
  obtain ⟨k, hk⟩ := Option.isSome_iff_exists.mp hk
  refine ⟨k, hk, ?_⟩
  simp [ctorCallable, hsel, operatorCall, invoke, hk, State.setTarget, State.setInvoker,
    State.setDestroyer, hcopy]

/-- Witness for C1: the free function `sum` stored in `FastFunction<int(int,int),16>`
and called on `(1, 1)`. -/
theorem round_trip_witness :
    ∃ k, sumPtrType.conv = some k ∧
      ((ctorCallable 16 (fun _ => sumPtrType) 0 10 [16] 0 zeroState).bind
        (operatorCall (fun _ => sumPtrType) 0 ((1 : Int), (1 : Int)))).map Prod.fst
        = some (k (sumPtrType.call 10 [16] (1, 1) ()).1) :=
  round_trip_invocation 16 (fun _ => sumPtrType) 0 10 [16] (1, 1) 0 zeroState rfl rfl

/-- The scenario of `test.cpp` line 32: `testFree(1,1)` is 2. -/
theorem test_free_function :
    ((ctorCallable 16 (fun _ => sumPtrType) 0 10 [16] 0 zeroState).bind
      (operatorCall (fun _ => sumPtrType) 0 ((1 : Int), (1 : Int)))).map Prod.fst
      = some 2 := by
  rfl

/-- The scenario of `test.cpp` line 54: `testFunctor(6)` is 12. -/
theorem test_functor :
    ((ctorCallable 64 (fun _ => functorType) 0 10 [0] 0 zeroState).bind
      (operatorCall (fun _ => functorType) 0 (6 : Int))).map Prod.fst = some 12 := by
  rfl

/-- The scenario of `test.cpp` line 46: `testBindMember(4)` is `foo.sum(4, 4)`. -/
theorem test_bind_member :
    ((ctorCallable 64 (fun _ => bindMemberType) 0 10 [4] 0 zeroState).bind
      (operatorCall (fun _ => bindMemberType) 0 (4 : Int))).map Prod.fst
      = some (Foo.sum 4 4) := by
  rfl

/-! ## C2: the state invariant -/

/-- C2 (code defect): copy construction from an empty wrapper, and move construction,
write no pointer member of the new object, so the wrappers they touch keep the bytes
the storage held before; here those read as a non-null invoker with a null destroyer,
and the invariant fails for the copy of an empty wrapper and for the moved-from
source. -/
theorem invariant_broken_by_copy_and_move_ctor :
    IsEmpty ((ctorDefault 0 staleState).mem 0) ∧
    ¬ Inv ((ctorCopy 1 0 (ctorDefault 0 staleState)).mem 1) ∧
    ((ctorCallable 64 ownerΓ 0 10 [1] 0 staleState).map
      (fun s => decide (Inv ((ctorMove 1 0 s).mem 0)))) = some false := by
  decide

/-! ## C3: move voids the source -/

/-- C3 (code defect): the wrapper `w1` at address 0 is bound; `w2` is move-constructed
in reused storage at address 1.  Afterwards `w1` holds the previous bytes of that
storage: it converts to true, its destroyer is not null, and destroying it runs a
destroyer.  The same happens to the source of a move assignment, whose temporary is
built in the reused storage. -/
theorem move_source_not_voided :
    BoundTo 0 (reusedBoundState.mem 0) ∧
    operatorBool ((ctorMove 1 0 reusedBoundState).mem 0) = true ∧
    ((ctorMove 1 0 reusedBoundState).mem 0).destroyer_ = some 0 ∧
    (dtor ownerΓ 0 (ctorMove 1 0 reusedBoundState)).log
      = (ctorMove 1 0 reusedBoundState).log ++ [Event.destroyed 0 0 [2]] ∧
    operatorBool ((assignMove ownerΓ 2 0 1 (ctorDefault 2 reusedBoundState)).mem 0) = true ∧
    ((assignMove ownerΓ 2 0 1 (ctorDefault 2 reusedBoundState)).mem 0).destroyer_
      = some 0 := by
  decide

/-! ## C4: how a wrapper copy produces the new slot -/

/-- C4 as stated fails: `w` at address 0 holds an `ownerType` value (buffer 2).  The
type's copy constructor applied to that value would give a value with a new buffer
and be counted once; the wrapper copy at address 1 has neither property. -/
theorem copy_not_through_copy_constructor :
    BoundTo 0 (boundState.mem 0) ∧
    ¬ (((ctorCopy 1 0 boundState).mem 1).target_
        = (ownerType.copyCtor 1 0 (boundState.mem 0).target_ boundState.world).1) ∧
    ¬ (copyCount (ctorCopy 1 0 boundState).log = copyCount boundState.log + 1) := by
  decide

/-- C4 amended: for every bound wrapper at `x`, copy construction at `this` gives the
new object the raw bytes of the source slot and the source's two pointers, and runs no
member of the embedded type (the world and the record of calls are unchanged); copy
assignment to `this` through a temporary at `tmp` gives `this` the same three members
and runs the embedded type's copy constructor zero times. -/
theorem copy_duplicates_raw_bytes {W Args R : Type} (Γ : TypeId → Callable W Args R)
    (this x tmp : Addr) (s : State W)
    (hb : operatorBool (s.mem x) = true) (h1 : tmp ≠ this) :
    (ctorCopy this x s).mem this = s.mem x ∧
    (ctorCopy this x s).world = s.world ∧
    (ctorCopy this x s).log = s.log ∧
    (assignCopy Γ this x tmp s).mem this = s.mem x ∧
    copyCount (assignCopy Γ this x tmp s).log = copyCount s.log := by
  refine ⟨ctorCopy_mem_this this x s hb, ctorCopy_world this x s, ctorCopy_log this x s,
    ?_, ?_⟩
  · unfold assignCopy
    rw [dtor_mem, swap_mem_x tmp this _ h1, ctorCopy_mem_this tmp x s hb]
  · unfold assignCopy dtor
    split
    · rw [swap_log, ctorCopy_log]
    · simp [copyCount_append, swap_log, ctorCopy_log, copyCount]

/-- Witness for C4 amended: the bound wrapper of `boundState` copied to address 2
through a temporary at address 1. -/
theorem copy_duplicates_raw_bytes_witness :
    (ctorCopy 2 0 boundState).mem 2 = boundState.mem 0 ∧
    (ctorCopy 2 0 boundState).world = boundState.world ∧
    (ctorCopy 2 0 boundState).log = boundState.log ∧
    (assignCopy ownerΓ 2 0 1 boundState).mem 2 = boundState.mem 0 ∧
    copyCount (assignCopy ownerΓ 2 0 1 boundState).log = copyCount boundState.log :=
  copy_duplicates_raw_bytes ownerΓ 2 0 1 boundState (by decide) (by decide)

/-! ## C5: copying an empty wrapper -/

/-- C5 (code defect): `x` at address 0 is default-constructed, hence empty.  Its copy
constructed in the reused storage at address 1 converts to true and has a non-null
destroyer, and `w = x` for the default-constructed `w` at address 2, with the
temporary in the reused storage, leaves `w` the same way. -/
theorem copy_of_empty_not_empty :
    IsEmpty ((ctorDefault 0 reusedState).mem 0) ∧
    operatorBool ((ctorCopy 1 0 (ctorDefault 0 reusedState)).mem 1) = true ∧
    ((ctorCopy 1 0 (ctorDefault 0 reusedState)).mem 1).destroyer_ = some 0 ∧
    operatorBool
      ((assignCopy ownerΓ 2 0 1 (ctorDefault 2 (ctorDefault 0 reusedState))).mem 2) = true ∧
    ((assignCopy ownerΓ 2 0 1 (ctorDefault 2 (ctorDefault 0 reusedState))).mem 2).destroyer_
      = some 0 := by
  decide

/-! ## C6: destruction -/

/-- C6 (code defect): a wrapper was built at address 1 and destroyed (its value, buffer
2, destroyed once); then `w1` is bound at address 0 and moved into `w2`, constructed in
the storage at address 1.  Destroying the moved-from `w1` runs a destroyer, on the
bytes of the value that was already destroyed. -/
theorem moved_from_destructor_runs_destroyer :
    (dtor ownerΓ 0 (ctorMove 1 0 reusedBoundState)).log
      = [Event.copied 0 1, Event.destroyed 0 1 [2], Event.copied 0 0,
         Event.destroyed 0 0 [2]] ∧
    destroyCount (dtor ownerΓ 0 (ctorMove 1 0 reusedBoundState)).log
      = destroyCount (ctorMove 1 0 reusedBoundState).log + 1 := by
  decide

/-! ## C7: self-assignment by copy -/

/-- C7 as stated fails: `w` at address 0 holds an `ownerType` value.  Before `w = w` a
call returns its argument; after it the call finds the buffer freed, because the
temporary's destructor ran the type's destructor on a byte-for-byte duplicate. -/
theorem self_copy_assignment_changes_results :
    BoundTo 0 (boundState.mem 0) ∧
    (operatorCall ownerΓ 0 (5 : Int) boundState).map Prod.fst = some (some 5) ∧
    (operatorCall ownerΓ 0 (5 : Int) (assignCopy ownerΓ 0 0 1 boundState)).map Prod.fst
      = some none ∧
    (operatorCall ownerΓ 0 (5 : Int) (assignCopy ownerΓ 0 0 1 boundState)).map Prod.fst
      ≠ (operatorCall ownerΓ 0 (5 : Int) boundState).map Prod.fst := by
  decide

/-- C7 amended: for every wrapper `w` bound to type `c`, after `w = w` the slot bytes
and both pointers of `w` are what they were, the destroyer has run exactly once and on
the temporary (whose slot is a raw duplicate of the slot of `w`), never on `w`, and
the world is the one the type's destructor leaves for those bytes; when that
destructor leaves the world as it was, invoking `w` gives the same result as before. -/
theorem self_copy_assignment {W Args R : Type} (Γ : TypeId → Callable W Args R)
    (this tmp : Addr) (c : TypeId) (s : State W)
    (hb : BoundTo c (s.mem this)) (ht : tmp ≠ this) :
    (assignCopy Γ this this tmp s).mem this = s.mem this ∧
    BoundTo c ((assignCopy Γ this this tmp s).mem this) ∧
    (assignCopy Γ this this tmp s).log
      = s.log ++ [Event.destroyed c tmp (s.mem this).target_] ∧
    (assignCopy Γ this this tmp s).world = (Γ c).dtor tmp (s.mem this).target_ s.world ∧
    ((Γ c).dtor tmp (s.mem this).target_ s.world = s.world →
      ∀ a : Args, (operatorCall Γ this a (assignCopy Γ this this tmp s)).map Prod.fst
        = (operatorCall Γ this a s).map Prod.fst) := by
  have hbool : operatorBool (s.mem this) = true := by simp [operatorBool, hb.1]
  have hmem : (assignCopy Γ this this tmp s).mem this = s.mem this := by
    unfold assignCopy
    rw [dtor_mem, swap_mem_x tmp this _ ht, ctorCopy_mem_this tmp this s hbool]
  have htmp : (swap tmp this (ctorCopy tmp this s)).mem tmp = s.mem this := by
    rw [swap_mem_this tmp this _ ht, ctorCopy_mem_other tmp this this s (Ne.symm ht)]
  have hd : ((swap tmp this (ctorCopy tmp this s)).mem tmp).destroyer_ = some c := by
    rw [htmp]; exact hb.2
  have hlog : (assignCopy Γ this this tmp s).log
      = s.log ++ [Event.destroyed c tmp (s.mem this).target_] := by
    unfold assignCopy
    rw [dtor_log_of_bound Γ tmp _ c hd, swap_log, ctorCopy_log, htmp]
  have hworld : (assignCopy Γ this this tmp s).world
      = (Γ c).dtor tmp (s.mem this).target_ s.world := by
    unfold assignCopy
    rw [dtor_world_of_bound Γ tmp _ c hd, swap_world, ctorCopy_world, htmp]
  refine ⟨hmem, ?_, hlog, hworld, ?_⟩
  · rw [hmem]; exact hb
  · intro hw a
    simp only [operatorCall, hmem, hworld, hw]
    cases (s.mem this).invoker_ <;> simp [Option.map_map, Function.comp_def]

/-- Witness for C7 amended: the wrapper holding `Functor` at address 0, temporary at
address 1. -/
theorem self_copy_assignment_witness :
    (assignCopy (fun _ => functorType) 0 0 1 functorState).mem 0 = functorState.mem 0 ∧
    BoundTo 0 ((assignCopy (fun _ => functorType) 0 0 1 functorState).mem 0) ∧
    (assignCopy (fun _ => functorType) 0 0 1 functorState).log
      = functorState.log ++ [Event.destroyed 0 1 (functorState.mem 0).target_] ∧
    (assignCopy (fun _ => functorType) 0 0 1 functorState).world
      = functorType.dtor 1 (functorState.mem 0).target_ functorState.world ∧
    (functorType.dtor 1 (functorState.mem 0).target_ functorState.world = functorState.world →
      ∀ a : Int,
        (operatorCall (fun _ => functorType) 0 a
          (assignCopy (fun _ => functorType) 0 0 1 functorState)).map Prod.fst
        = (operatorCall (fun _ => functorType) 0 a functorState).map Prod.fst) :=
  self_copy_assignment (fun _ => functorType) 0 1 0 functorState (by decide) (by decide)

/-! ## C8: self-move-assignment -/

/-- C8 (code defect): `w` at address 0 is bound and `w = std::move(w)` builds its
temporary in the reused storage at address 1.  The members of `w` come back as they
were, but destroying the temporary runs a destroyer. -/
theorem self_move_assignment_runs_destroyer :
    (assignMove ownerΓ 0 0 1 reusedBoundState).mem 0 = reusedBoundState.mem 0 ∧
    (assignMove ownerΓ 0 0 1 reusedBoundState).log
      = reusedBoundState.log ++ [Event.destroyed 0 1 [2]] ∧
    destroyCount (assignMove ownerΓ 0 0 1 reusedBoundState).log
      = destroyCount reusedBoundState.log + 1 := by
  decide

/-! ## C9: assignment from `nullptr` -/

/-- C9: for every wrapper `w` that satisfies the state invariant, `w = nullptr`
completes and leaves `w` with both pointers null and converting to false; the
destroyer is run exactly once (on the slot of `w`) when `w` was bound and not at all
when `w` was empty; assigning `nullptr` again changes nothing: same state, same world,
same record of destroyer calls. -/
theorem null_assignment_idempotent {W Args R : Type} (Γ : TypeId → Callable W Args R)
    (this : Addr) (s : State W) (hinv : Inv (s.mem this)) :
    ∃ s1, assignNull Γ this s = some s1 ∧
      IsEmpty (s1.mem this) ∧ operatorBool (s1.mem this) = false ∧
      s1.log = s.log ++
        (match (s.mem this).invoker_ with
         | none => []
         | some c => [Event.destroyed c this (s.mem this).target_]) ∧
      destroyCount s1.log
        = destroyCount s.log + (if operatorBool (s.mem this) then 1 else 0) ∧
      assignNull Γ this s1 = some s1 ∧
      (assignNull Γ this s).bind (assignNull Γ this) = assignNull Γ this s := by
  unfold Inv at hinv
  cases hi : (s.mem this).invoker_ with
  | none =>
    have hd : (s.mem this).destroyer_ = none := by rw [← hinv, hi]
    have h0 : assignNull Γ this s = some s := by simp [assignNull, hi]
    refine ⟨s, h0, ⟨hi, hd⟩, by simp [operatorBool, hi], by simp, ?_, h0, ?_⟩
    · simp [operatorBool, hi]
    · rw [h0]; simpa using h0
  | some c =>
    have hd : (s.mem this).destroyer_ = some c := by rw [← hinv, hi]
    have h0 : assignNull Γ this s = some
        ((({ s with
            world := destroy Γ c this (s.mem this).target_ s.world
            log := s.log ++ [Event.destroyed c this (s.mem this).target_] } :
          State W).setInvoker this none).setDestroyer this none) := by
      simp [assignNull, hi, callDestroyer, hd]
    have h1 : assignNull Γ this
        ((({ s with
            world := destroy Γ c this (s.mem this).target_ s.world
            log := s.log ++ [Event.destroyed c this (s.mem this).target_] } :
          State W).setInvoker this none).setDestroyer this none) = some
        ((({ s with
            world := destroy Γ c this (s.mem this).target_ s.world
            log := s.log ++ [Event.destroyed c this (s.mem this).target_] } :
          State W).setInvoker this none).setDestroyer this none) := by
      simp [assignNull, State.setInvoker, State.setDestroyer]
    refine ⟨_, h0, ?_, ?_, ?_, ?_, h1, ?_⟩
    · simp [IsEmpty, State.setInvoker, State.setDestroyer]
    · simp [operatorBool, State.setInvoker, State.setDestroyer]
    · simp [State.setInvoker, State.setDestroyer]
    · simp [State.setInvoker, State.setDestroyer, destroyCount_append, destroyCount,
        operatorBool, hi]
    · rw [h0]; simpa using h1

/-- Witness for C9: the bound wrapper of `boundState`. -/
theorem null_assignment_idempotent_witness :
    ∃ s1, assignNull ownerΓ 0 boundState = some s1 ∧
      IsEmpty (s1.mem 0) ∧ operatorBool (s1.mem 0) = false ∧
      s1.log = boundState.log ++
        (match (boundState.mem 0).invoker_ with
         | none => []
         | some c => [Event.destroyed c 0 (boundState.mem 0).target_]) ∧
      destroyCount s1.log
        = destroyCount boundState.log + (if operatorBool (boundState.mem 0) then 1 else 0) ∧
      assignNull ownerΓ 0 s1 = some s1 ∧
      (assignNull ownerΓ 0 boundState).bind (assignNull ownerΓ 0)
        = assignNull ownerΓ 0 boundState :=
  null_assignment_idempotent ownerΓ 0 boundState (by decide)

/-! ## C10: assignment from a callable -/

/-- C10 as stated fails: `f` is a `homeType` object at address 10 (a call of `f`
returns 1) and `w` is the empty wrapper at address 0.  `w = f` builds the stored copy
in the temporary at address 1 and brings its bytes into `w` by `std::swap`, so the
object in `w` is not where it was built and `w(5)` returns 0.  Move-assigning
`FastFunction(f)`, built at address 3, leaves other bytes in `w`. -/
theorem assign_callable_relocates_target :
    selectable 64 homeType = true ∧
    homeType.conv.map (fun k => k (homeType.call 10 [10] 5 ()).1) = some 1 ∧
    ((assignCallable 64 (fun _ => homeType) 0 false true 10 [10] 0 1 2 zeroState).bind
      (operatorCall (fun _ => homeType) 0 (5 : Int))).map Prod.fst = some 0 ∧
    (assignCallable 64 (fun _ => homeType) 0 false true 10 [10] 0 1 2 zeroState).map
      (fun s1 => (s1.mem 0).target_) = some [1] ∧
    (constructThenMoveAssign 64 (fun _ => homeType) 0 false true 10 [10] 0 3 4 2
      zeroState).map (fun s1 => (s1.mem 0).target_) = some [3] := by
  decide

/-- C10 amended: for every wrapper `w` at `this` that satisfies the state invariant
and every accepted callable `f` of type `c` (an lvalue or an rvalue, at `fa`), `w = f`
completes; afterwards `w` is bound to `c` and its slot holds the bytes of the copy
that the constructor of the temporary made of its parameter, brought into `w` by
`std::swap`; invoking `w` on any `a` calls that type on those bytes at the address of
`w`, which is what `f` returns when the object calls at the address of `w` as it does
where it was built and there calls like `f`; the members of `w` are those that
move-assigning `FastFunction(f)` into `w` gives when the copy constructor builds the
same bytes in both temporaries; the only destroyer call is one call for the old target
of `w` when `w` was bound, none when it was empty; and the record holds, besides it,
the two constructor calls and the destructor call for the parameter. -/
theorem assign_callable_refines_construct_then_move {W Args R : Type} (Size : Nat)
    (Γ : TypeId → Callable W Args R) (c : TypeId) (rvalue calleeCleanup : Bool)
    (fa : Addr) (f : Bytes) (this tmp param src tmp2 : Addr) (s : State W)
    (hsel : selectable Size (Γ c) = true) (hinv : Inv (s.mem this))
    (ht : tmp ≠ this) (ht2 : tmp2 ≠ this) (hts : tmp2 ≠ src) :
    ∃ k s1, (Γ c).conv = some k ∧
      assignCallable Size Γ c rvalue calleeCleanup fa f this tmp param s = some s1 ∧
      BoundTo c (s1.mem this) ∧
      (s1.mem this).target_
        = ((Γ c).copyCtor tmp param (initParameter Γ c rvalue param fa f s).1
            (initParameter Γ c rvalue param fa f s).2.world).1 ∧
      (∀ a : Args, (operatorCall Γ this a s1).map Prod.fst
        = some (k ((Γ c).call this (s1.mem this).target_ a s1.world).1)) ∧
      (∀ a : Args,
        ((Γ c).call this (s1.mem this).target_ a s1.world).1
          = ((Γ c).call tmp (s1.mem this).target_ a s1.world).1 →
        ((Γ c).call tmp (s1.mem this).target_ a s1.world).1
          = ((Γ c).call fa f a s1.world).1 →
        (operatorCall Γ this a s1).map Prod.fst
          = some (k ((Γ c).call fa f a s1.world).1)) ∧
      (((Γ c).copyCtor src param (initParameter Γ c rvalue param fa f s).1
            (initParameter Γ c rvalue param fa f s).2.world).1
          = ((Γ c).copyCtor tmp param (initParameter Γ c rvalue param fa f s).1
            (initParameter Γ c rvalue param fa f s).2.world).1 →
        (constructThenMoveAssign Size Γ c rvalue calleeCleanup fa f this src tmp2 param
          s).map (fun s2 => s2.mem this) = some (s1.mem this)) ∧
      s1.log = s.log ++
        [if rvalue then Event.moved c param else Event.copied c param, Event.copied c tmp]
        ++ (if calleeCleanup then
              Event.parameterDestroyed c param (initParameter Γ c rvalue param fa f s).1 ::
                (match (s.mem this).invoker_ with
                 | none => []
                 | some d => [Event.destroyed d tmp (s.mem this).target_])
            else
              (match (s.mem this).invoker_ with
               | none => []
               | some d => [Event.destroyed d tmp (s.mem this).target_]) ++
                [Event.parameterDestroyed c param
                  (initParameter Γ c rvalue param fa f s).1]) ∧
      destroyCount s1.log
        = destroyCount s.log + (if operatorBool (s.mem this) then 1 else 0) := by
  obtain ⟨k, hk⟩ := selectable_conv Size (Γ c) hsel
  obtain ⟨s1, h1, hm⟩ := assignCallable_mem_this Size Γ c rvalue calleeCleanup fa f this
    tmp param s hsel ht
  have hlog := assignCallable_log Size Γ c rvalue calleeCleanup fa f this tmp param s s1
    h1 hinv ht
  have hcall : ∀ a : Args, (operatorCall Γ this a s1).map Prod.fst
      = some (k ((Γ c).call this (s1.mem this).target_ a s1.world).1) := fun a =>
    operatorCall_of_bound Γ this a s1 c k hk (by rw [hm])
  refine ⟨k, s1, hk, h1, by rw [hm]; exact ⟨rfl, rfl⟩, by rw [hm], hcall, ?_, ?_, hlog, ?_⟩
  · intro a hr hc
    rw [hcall a, hr, hc]
  · intro hsame
    obtain ⟨sB, hB, hBp, hBq, _, _⟩ := ctorCallable_some Size Γ c param
      (initParameter Γ c rvalue param fa f s).1 src
      (initParameter Γ c rvalue param fa f s).2 hsel
    have hmove : ∀ t : State W, t.mem = sB.mem →
        (assignMove Γ this src tmp2 t).mem this = sB.mem src := by
      intro t ht0
      unfold assignMove ctorMove
      rw [dtor_mem, swap_mem_x tmp2 this _ ht2, swap_mem_x src tmp2 t (Ne.symm hts), ht0]
    cases calleeCleanup with
    | true =>
      simp only [constructThenMoveAssign, hB, Option.map_some', if_true,
        Option.some.injEq]
      rw [hmove _ (destroyParameter_mem Γ c param _ sB), hBp, hm, hsame]
    | false =>
      simp only [constructThenMoveAssign, hB, Option.map_some', Bool.false_eq_true,
        if_false, Option.some.injEq]
      rw [destroyParameter_mem, hmove sB rfl, hBp, hm, hsame]
  · rw [hlog]
    cases hi : (s.mem this).invoker_ with
    | none =>
      cases calleeCleanup <;> cases rvalue <;>
        simp [destroyCount_append, destroyCount, operatorBool, hi]
    | some d =>
      cases calleeCleanup <;> cases rvalue <;>
        simp [destroyCount_append, destroyCount, operatorBool, hi]

/-- Witness for C10 amended: `w = f` for the bound wrapper of `boundState` at address
0 and the caller's object at address 10, with the temporary at address 1 and the
parameter at address 4; the path of the spec builds its wrapper at address 2 and the
temporary of the move assignment at address 3. -/
theorem assign_callable_refines_construct_then_move_witness :
    ∃ k s1, (ownerΓ 0).conv = some k ∧
      assignCallable 64 ownerΓ 0 false true 10 [1] 0 1 4 boundState = some s1 ∧
      BoundTo 0 (s1.mem 0) ∧
      (∀ a : Int, (operatorCall ownerΓ 0 a s1).map Prod.fst
        = some (k ((ownerΓ 0).call 0 (s1.mem 0).target_ a s1.world).1)) ∧
      destroyCount s1.log
        = destroyCount boundState.log + (if operatorBool (boundState.mem 0) then 1 else 0) :=
  have h := assign_callable_refines_construct_then_move 64 ownerΓ 0 false true 10 [1] 0 1
    4 2 3 boundState (by decide) (by decide) (by decide) (by decide) (by decide)
  h.elim fun k hk => hk.elim fun s1 h1 =>
    ⟨k, s1, h1.1, h1.2.1, h1.2.2.1, h1.2.2.2.2.1, h1.2.2.2.2.2.2.2.2⟩

/-- The scenario of C10 evaluated for a type that does not read its address: after
`w = f` a call on 5 returns 5, the old value (buffer 2) has been destroyed once, the
parameter owned buffer 3 and the new value owns buffer 4. -/
theorem test_assign_callable :
    (assignCallable 64 ownerΓ 0 false true 10 [1] 0 1 4 boundState).map
      (fun s1 => s1.mem 0)
      = some { target_ := [4], invoker_ := some 0, destroyer_ := some 0 } ∧
    (assignCallable 64 ownerΓ 0 false true 10 [1] 0 1 4 boundState).map (fun s1 => s1.log)
      = some [Event.copied 0 0, Event.copied 0 4, Event.copied 0 1,
          Event.parameterDestroyed 0 4 [3], Event.destroyed 0 1 [2]] ∧
    ((assignCallable 64 ownerΓ 0 false true 10 [1] 0 1 4 boundState).bind
      (operatorCall ownerΓ 0 (5 : Int))).map Prod.fst = some (some 5) := by
  decide

/-! ## C11: failure atomicity of assignment from a callable -/

theorem assignCallableThrowing_of_no_throw {W Args R : Type} (Size : Nat)
    (Γ : TypeId → Callable W Args R) (throws : TypeId → Bytes → W → Option W)
    (c : TypeId) (fa : Addr) (f : Bytes) (this tmp : Addr) (s : State W)
    (h : throws c f s.world = none) :
    assignCallableThrowing Size Γ throws c fa f this tmp s
      = (ctorCallable Size Γ c fa f tmp s).map
          (fun s1 => Outcome.returned (dtor Γ tmp (swap tmp this s1))) := by
  unfold assignCallableThrowing ctorCallableThrowing
  by_cases hsel : selectable Size (Γ c) = true
  · simp [hsel, h, ctorCallable]
  · simp [hsel, ctorCallable]

/-- C11: for every wrapper `w` bound to a type `d` and every accepted callable `f`
whose copy construction into the temporary throws, `w = f` exits by that exception and
leaves every wrapper in storage as it was: `w` has the same slot bytes, is still
bound to `d`, and no destroyer has been run. -/
theorem assign_callable_failure_atomic {W Args R : Type} (Size : Nat)
    (Γ : TypeId → Callable W Args R) (throws : TypeId → Bytes → W → Option W)
    (c d : TypeId) (fa : Addr) (f : Bytes) (this tmp : Addr) (s : State W) (w1 : W)
    (hsel : selectable Size (Γ c) = true) (hthrow : throws c f s.world = some w1)
    (hb : BoundTo d (s.mem this)) :
    ∃ s1, assignCallableThrowing Size Γ throws c fa f this tmp s = some (Outcome.threw s1) ∧
      s1.mem = s.mem ∧ s1.mem this = s.mem this ∧ BoundTo d (s1.mem this) ∧
      s1.log = s.log ∧ destroyCount s1.log = destroyCount s.log := by
  refine ⟨{ s with world := w1 }, ?_, rfl, rfl, hb, rfl, rfl⟩
  simp [assignCallableThrowing, ctorCallableThrowing, hsel, hthrow]

/-- Witness for C11: the bound wrapper of `boundState`, and a copy constructor that
throws (allocation failure) without changing the world. -/
theorem assign_callable_failure_atomic_witness :
    ∃ s1, assignCallableThrowing 64 ownerΓ (fun _ _ w => some w) 0 10 [1] 0 1 boundState
        = some (Outcome.threw s1) ∧
      s1.mem = boundState.mem ∧ s1.mem 0 = boundState.mem 0 ∧ BoundTo 0 (s1.mem 0) ∧
      s1.log = boundState.log ∧ destroyCount s1.log = destroyCount boundState.log :=
  assign_callable_failure_atomic 64 ownerΓ (fun _ _ w => some w) 0 0 10 [1] 0 1 boundState
    boundState.world (by decide) rfl (by decide)

/-! ## C12: the capacity gate -/

theorem sizeofTarget_ge (Size : Nat) : Size ≤ sizeofTarget Size := by
  unfold sizeofTarget; omega

theorem sizeofTarget_lt (Size : Nat) : sizeofTarget Size < Size + 8 := by
  unfold sizeofTarget; omega

theorem sizeofTarget_dvd (Size : Nat) : 8 ∣ sizeofTarget Size := by
  unfold sizeofTarget; exact Nat.dvd_mul_left 8 _

theorem sizeofTarget_least (Size n : Nat) (h1 : Size ≤ n) (h2 : 8 ∣ n) :
    sizeofTarget Size ≤ n := by
  unfold sizeofTarget; omega

theorem sizeofTarget_of_dvd (Size : Nat) (h : 8 ∣ Size) : sizeofTarget Size = Size := by
  unfold sizeofTarget; omega

/-- C12 as stated fails: in `FastFunction<int(int), 12>` the storage has 16 bytes, and
the converting constructor accepts a callable of 16 bytes, more than the capacity
12. -/
theorem capacity_gate_accepts_above_capacity :
    12 < twoPointerType.sizeofC ∧
    selectable 12 twoPointerType = true ∧
    (ctorCallable 12 (fun _ => twoPointerType) 0 10 [7, 9] 0 zeroState).isSome = true := by
  decide

/-- C12 amended: the converting constructor is selectable for a type exactly when its
call result is void-compatible, identical or convertible to `R`, it is not the wrapper
type itself, its alignment is at most 8 and its size is at most `sizeof(Target)`,
the capacity rounded up to a multiple of 8; a selected type is therefore smaller than
capacity plus 8, and is within the capacity when the capacity is a multiple of 8.
Construction happens exactly for the selectable types, so it is rejected for every
type larger than the rounded capacity. -/
theorem capacity_gate {W Args R : Type} (Size : Nat) (Γ : TypeId → Callable W Args R)
    (c : TypeId) (fa : Addr) (f : Bytes) (this : Addr) (s : State W) :
    (selectable Size (Γ c) = true ↔
      ((Γ c).conv.isSome = true ∧ (Γ c).isFastFunction = false ∧ (Γ c).alignofC ≤ 8 ∧
        (Γ c).sizeofC ≤ (Size + 7) / 8 * 8)) ∧
    (selectable Size (Γ c) = true → (Γ c).sizeofC < Size + 8) ∧
    (selectable Size (Γ c) = true → 8 ∣ Size → (Γ c).sizeofC ≤ Size) ∧
    (ctorCallable Size Γ c fa f this s).isSome = selectable Size (Γ c) ∧
    ((Size + 7) / 8 * 8 < (Γ c).sizeofC → ctorCallable Size Γ c fa f this s = none) ∧
    (8 < (Γ c).alignofC → ctorCallable Size Γ c fa f this s = none) := by
  have hiff : selectable Size (Γ c) = true ↔
      ((Γ c).conv.isSome = true ∧ (Γ c).isFastFunction = false ∧ (Γ c).alignofC ≤ 8 ∧
        (Γ c).sizeofC ≤ (Size + 7) / 8 * 8) := by
    simp only [selectable, alignofTarget, sizeofTarget, Bool.and_eq_true,
      Bool.not_eq_true', decide_eq_true_eq]
    tauto
  have hsome : (ctorCallable Size Γ c fa f this s).isSome = selectable Size (Γ c) := by
    unfold ctorCallable
    cases selectable Size (Γ c) <;> simp
  refine ⟨hiff, ?_, ?_, hsome, ?_, ?_⟩
  · intro h
    have := (hiff.mp h).2.2.2
    omega
  · intro h h8
    have := (hiff.mp h).2.2.2
    omega
  · intro h
    have hn : selectable Size (Γ c) = false := by
      cases hs : selectable Size (Γ c) with
      | false => rfl
      | true =>
        have := (hiff.mp hs).2.2.2
        omega
    simp [ctorCallable, hn]
  · intro h
    have hn : selectable Size (Γ c) = false := by
      cases hs : selectable Size (Γ c) with
      | false => rfl
      | true =>
        have := (hiff.mp hs).2.2.1
        omega
    simp [ctorCallable, hn]

/-- Witness for C12 amended: the function pointer to `sum` (8 bytes) and the capacity
16 of `test.cpp`; the type is selectable, hence within the capacity. -/
theorem capacity_gate_witness : sumPtrType.sizeofC ≤ 16 :=
  (capacity_gate 16 (fun _ => sumPtrType) 0 10 [16] 0 zeroState).2.2.1 (by decide)
    (by decide)

/-! ## C13: copy independence -/

theorem operatorCall_mem_other {W Args R : Type} (Γ : TypeId → Callable W Args R)
    (p q : Addr) (a : Args) (s s1 : State W) (r : R)
    (h : operatorCall Γ p a s = some (r, s1)) (hq : q ≠ p) : s1.mem q = s.mem q := by
  unfold operatorCall at h
  cases hi : (s.mem p).invoker_ with
  | none => simp [hi] at h
  | some c =>
    simp only [hi, Option.map_eq_some'] at h
    obtain ⟨x, _, hx⟩ := h
    have hs : s1 = { s.setTarget p x.2.1 with world := x.2.2 } := by
      have := congrArg Prod.snd hx
      exact this.symm
    rw [hs]
    simp [State.setTarget, hq]

theorem assignNull_mem_other {W Args R : Type} (Γ : TypeId → Callable W Args R)
    (p q : Addr) (s s1 : State W) (h : assignNull Γ p s = some s1) (hq : q ≠ p) :
    s1.mem q = s.mem q := by
  unfold assignNull at h
  by_cases hi : (s.mem p).invoker_.isSome = true
  · simp only [hi, if_true, Option.map_eq_some'] at h
    obtain ⟨x, hx, hs⟩ := h
    unfold callDestroyer at hx
    cases hd : (s.mem p).destroyer_ with
    | none => simp [hd] at hx
    | some d =>
      simp only [hd, Option.some.injEq] at hx
      rw [← hs, ← hx]
      simp [State.setInvoker, State.setDestroyer, hq]
  · simp only [hi, Bool.false_eq_true, if_false, Option.some.injEq] at h
    rw [← h]

theorem applyMutation_mem_other {W Args R : Type} (Size : Nat)
    (Γ : TypeId → Callable W Args R) (p q : Addr) (hq : q ≠ p) (m : Mutation Args)
    (hm : m.avoids q) (s s1 : State W) (h : applyMutation Size Γ p m s = some s1) :
    s1.mem q = s.mem q := by
  cases m with
  | call a =>
    simp only [applyMutation, Option.map_eq_some'] at h
    obtain ⟨x, hx, hs⟩ := h
    have hx2 : operatorCall Γ p a s = some (x.1, s1) := by rw [hx, ← hs]
    exact operatorCall_mem_other Γ p q a s s1 x.1 hx2 hq
  | reset => exact assignNull_mem_other Γ p q s s1 h hq
  | assignCallable c rvalue calleeCleanup fa f tmp param =>
    simp only [Mutation.avoids] at hm
    exact assignCallable_mem_other Size Γ c rvalue calleeCleanup fa f p tmp param q s s1 h
      hq (Ne.symm hm)
  | assignCopy x tmp =>
    simp only [Mutation.avoids] at hm
    simp only [applyMutation, Option.some.injEq] at h
    rw [← h]
    unfold assignCopy
    rw [dtor_mem, swap_mem_other tmp p q _ (Ne.symm hm) hq,
      ctorCopy_mem_other tmp x q s (Ne.symm hm)]
  | assignMove x tmp =>
    simp only [Mutation.avoids] at hm
    simp only [applyMutation, Option.some.injEq] at h
    rw [← h]
    unfold assignMove ctorMove
    rw [dtor_mem, swap_mem_other tmp p q _ (Ne.symm hm.2) hq,
      swap_mem_other x tmp q s (Ne.symm hm.1) (Ne.symm hm.2)]
  | moveConstruct y =>
    simp only [Mutation.avoids] at hm
    simp only [applyMutation, Option.some.injEq] at h
    rw [← h]
    unfold ctorMove
    rw [swap_mem_other p y q s hq (Ne.symm hm)]
  | moveAssignTo y tmp =>
    simp only [Mutation.avoids] at hm
    simp only [applyMutation, Option.some.injEq] at h
    rw [← h]
    unfold assignMove ctorMove
    rw [dtor_mem, swap_mem_other tmp y q _ (Ne.symm hm.2) (Ne.symm hm.1),
      swap_mem_other p tmp q s hq (Ne.symm hm.2)]
  | destroy =>
    simp only [applyMutation, Option.some.injEq] at h
    rw [← h, dtor_mem]

theorem applyMutations_mem_other {W Args R : Type} (Size : Nat)
    (Γ : TypeId → Callable W Args R) (p q : Addr) (hq : q ≠ p)
    (ms : List (Mutation Args)) :
    ∀ (s s1 : State W), (∀ m ∈ ms, m.avoids q) →
      applyMutations Size Γ p ms s = some s1 → s1.mem q = s.mem q := by
  induction ms with
  | nil =>
    intro s s1 _ h
    simp only [applyMutations, Option.some.injEq] at h
    rw [← h]
  | cons m ms ih =>
    intro s s1 hav h
    simp only [applyMutations, Option.bind_eq_some] at h
    obtain ⟨s2, h2, h3⟩ := h
    rw [ih s2 s1 (fun m1 hm1 => hav m1 (List.mem_cons_of_mem m hm1)) h3]
    exact applyMutation_mem_other Size Γ p q hq m (hav m (List.mem_cons_self m ms)) s s2 h2

theorem results_congr {W Args R : Type} (Γ : TypeId → Callable W Args R) (p q : Addr)
    (c : TypeId) (hc : SelfContained (Γ c)) (bs : List Args) :
    ∀ (s s1 : State W), (s.mem q).target_ = (s1.mem p).target_ →
      (s.mem q).invoker_ = some c → (s1.mem p).invoker_ = some c →
      results Γ q bs s = results Γ p bs s1 := by
  induction bs with
  | nil => intro s s1 _ _ _; rfl
  | cons a as ih =>
    intro s s1 hm hi hi1
    cases hk : (Γ c).conv with
    | none => simp [results, operatorCall, hi, hi1, invoke, hk]
    | some k =>
      have h1 := (hc q p (s1.mem p).target_ a s.world s1.world).1
      have h2 := (hc q p (s1.mem p).target_ a s.world s1.world).2
      have hrec := ih
        ({ s.setTarget q ((Γ c).call q (s1.mem p).target_ a s.world).2.1 with
            world := ((Γ c).call q (s1.mem p).target_ a s.world).2.2 } : State W)
        ({ s1.setTarget p ((Γ c).call p (s1.mem p).target_ a s1.world).2.1 with
            world := ((Γ c).call p (s1.mem p).target_ a s1.world).2.2 } : State W)
        (by simp [State.setTarget, h2])
        (by simp [State.setTarget, hi])
        (by simp [State.setTarget, hi1])
      simp only [results, operatorCall, hi, hi1, invoke, hk, Option.map_some', hm]
      rw [hrec, h1]

theorem results_frame {W Args R : Type} (Size : Nat) (Γ : TypeId → Callable W Args R)
    (p q : Addr) (c : TypeId) (hc : SelfContained (Γ c)) (hq : q ≠ p) (s s1 : State W)
    (hi : (s.mem q).invoker_ = some c) (ms : List (Mutation Args))
    (hav : ∀ m ∈ ms, m.avoids q)
    (h : applyMutations Size Γ p ms s = some s1) (bs : List Args) :
    results Γ q bs s1 = results Γ q bs s := by
  have hm := applyMutations_mem_other Size Γ p q hq ms s s1 hav h
  exact results_congr Γ q q c hc bs s1 s (by rw [hm]) (by rw [hm]; exact hi) hi

/-- C13 as stated fails: `w1` at address 0 holds a value that owns a buffer and `w2`
at address 1 is made as its copy (by the copy constructor, or by `w2 = w1`).  Before
`w1` is touched, `w2(5)` returns 5; after the mutation `w1 = nullptr`, and likewise
after the destruction of `w1`, the same call on `w2` finds the buffer freed.  And a
copy of a wrapper whose target reads its own address (`homeType`) does not hold a
value of its own: it answers 0 where the original answers 1. -/
theorem copy_shares_owned_state :
    results ownerΓ 1 [5] (ctorCopy 1 0 boundState) = some [some 5] ∧
    (applyMutations 64 ownerΓ 0 [Mutation.reset] (ctorCopy 1 0 boundState)).bind
      (results ownerΓ 1 [5]) = some [none] ∧
    (applyMutations 64 ownerΓ 0 [Mutation.destroy] (ctorCopy 1 0 boundState)).bind
      (results ownerΓ 1 [5]) = some [none] ∧
    results ownerΓ 1 [5] (assignCopy ownerΓ 1 0 2 (ctorDefault 1 boundState))
      = some [some 5] ∧
    (applyMutations 64 ownerΓ 0 [Mutation.reset]
      (assignCopy ownerΓ 1 0 2 (ctorDefault 1 boundState))).bind
      (results ownerΓ 1 [5]) = some [none] ∧
    results (fun _ => homeType) 0 [5] (ctorCopy 1 0 homeState) = some [1] ∧
    results (fun _ => homeType) 1 [5] (ctorCopy 1 0 homeState) = some [0] := by
  decide

/-- C13 amended: let `w1` at `p` be bound to a type whose state lives entirely in its
own bytes (its call result and the bytes it leaves depend on those bytes and the
arguments only, not on the world and not on the address of the object, as for a
counting function object), and let `w2` at `q` be made as a copy of `w1`, by copy
construction or by `w2 = w1`.  Then `w2` produces the results that `w1` produces from
the moment of the copy, and every defined sequence of invocations and mutations of
`w1` (assignment of `nullptr`, of a callable, of another wrapper by copy or by move,
a move out of `w1`, its destruction) that does not itself write `w2` leaves the
results of all subsequent invocations of `w2` unchanged; and the same with the roles
of `w1` and `w2` exchanged. -/
theorem copy_independence {W Args R : Type} (Size : Nat) (Γ : TypeId → Callable W Args R)
    (p q tmp : Addr) (c : TypeId) (s : State W)
    (hpq : p ≠ q) (htq : tmp ≠ q) (htp : tmp ≠ p)
    (hb : BoundTo c (s.mem p)) (hc : SelfContained (Γ c)) :
    (∀ bs : List Args, results Γ q bs (ctorCopy q p s) = results Γ p bs (ctorCopy q p s)) ∧
    (∀ (ms : List (Mutation Args)) (s2 : State W) (bs : List Args),
      (∀ m ∈ ms, m.avoids q) →
      applyMutations Size Γ p ms (ctorCopy q p s) = some s2 →
        results Γ q bs s2 = results Γ q bs (ctorCopy q p s)) ∧
    (∀ (ms : List (Mutation Args)) (s2 : State W) (bs : List Args),
      (∀ m ∈ ms, m.avoids p) →
      applyMutations Size Γ q ms (ctorCopy q p s) = some s2 →
        results Γ p bs s2 = results Γ p bs (ctorCopy q p s)) ∧
    (∀ bs : List Args, results Γ q bs (assignCopy Γ q p tmp s)
        = results Γ p bs (assignCopy Γ q p tmp s)) ∧
    (∀ (ms : List (Mutation Args)) (s2 : State W) (bs : List Args),
      (∀ m ∈ ms, m.avoids q) →
      applyMutations Size Γ p ms (assignCopy Γ q p tmp s) = some s2 →
        results Γ q bs s2 = results Γ q bs (assignCopy Γ q p tmp s)) ∧
    (∀ (ms : List (Mutation Args)) (s2 : State W) (bs : List Args),
      (∀ m ∈ ms, m.avoids p) →
      applyMutations Size Γ q ms (assignCopy Γ q p tmp s) = some s2 →
        results Γ p bs s2 = results Γ p bs (assignCopy Γ q p tmp s)) := by
  have hbool : operatorBool (s.mem p) = true := by simp [operatorBool, hb.1]
  have m1q : (ctorCopy q p s).mem q = s.mem p := ctorCopy_mem_this q p s hbool
  have m1p : (ctorCopy q p s).mem p = s.mem p := ctorCopy_mem_other q p p s hpq
  have m2q : (assignCopy Γ q p tmp s).mem q = s.mem p := by
    unfold assignCopy
    rw [dtor_mem, swap_mem_x tmp q _ htq, ctorCopy_mem_this tmp p s hbool]
  have m2p : (assignCopy Γ q p tmp s).mem p = s.mem p := by
    unfold assignCopy
    rw [dtor_mem, swap_mem_other tmp q p _ (Ne.symm htp) hpq,
      ctorCopy_mem_other tmp p p s (Ne.symm htp)]
  refine ⟨?_, ?_, ?_, ?_, ?_, ?_⟩
  · intro bs
    exact results_congr Γ p q c hc bs _ _ (by rw [m1q, m1p]) (by rw [m1q]; exact hb.1)
      (by rw [m1p]; exact hb.1)
  · intro ms s2 bs hav h
    exact results_frame Size Γ p q c hc (Ne.symm hpq) _ s2 (by rw [m1q]; exact hb.1) ms hav
      h bs
  · intro ms s2 bs hav h
    exact results_frame Size Γ q p c hc hpq _ s2 (by rw [m1p]; exact hb.1) ms hav h bs
  · intro bs
    exact results_congr Γ p q c hc bs _ _ (by rw [m2q, m2p]) (by rw [m2q]; exact hb.1)
      (by rw [m2p]; exact hb.1)
  · intro ms s2 bs hav h
    exact results_frame Size Γ p q c hc (Ne.symm hpq) _ s2 (by rw [m2q]; exact hb.1) ms hav
      h bs
  · intro ms s2 bs hav h
    exact results_frame Size Γ q p c hc hpq _ s2 (by rw [m2p]; exact hb.1) ms hav h bs

theorem counterType_selfContained : SelfContained counterType := by
  intro p q b a w w1
  exact ⟨rfl, rfl⟩

/-- Witness for C13 amended: the counting function object at address 0, its copy at
address 1, and the temporary of `w2 = w1` at address 2; stated for the copy made by
the copy constructor. -/
theorem copy_independence_witness :
    (∀ bs : List Unit, results (fun _ => counterType) 1 bs (ctorCopy 1 0 counterState)
      = results (fun _ => counterType) 0 bs (ctorCopy 1 0 counterState)) ∧
    (∀ (ms : List (Mutation Unit)) (s2 : State Unit) (bs : List Unit),
      (∀ m ∈ ms, m.avoids 1) →
      applyMutations 64 (fun _ => counterType) 0 ms (ctorCopy 1 0 counterState) = some s2 →
        results (fun _ => counterType) 1 bs s2
          = results (fun _ => counterType) 1 bs (ctorCopy 1 0 counterState)) ∧
    (∀ (ms : List (Mutation Unit)) (s2 : State Unit) (bs : List Unit),
      (∀ m ∈ ms, m.avoids 0) →
      applyMutations 64 (fun _ => counterType) 1 ms (ctorCopy 1 0 counterState) = some s2 →
        results (fun _ => counterType) 0 bs s2
          = results (fun _ => counterType) 0 bs (ctorCopy 1 0 counterState)) :=
  have h := copy_independence 64 (fun _ => counterType) 0 1 2 0 counterState (by decide)
    (by decide) (by decide) (by decide) counterType_selfContained
  ⟨h.1, h.2.1, h.2.2.1⟩

/-- The counting scenario evaluated: after two calls of `w1` and then `w1 = nullptr`,
the copy `w2` still counts from where it was copied; without the null assignment `w1`
continues from its own count. -/
theorem test_counter_copies :
    (applyMutations 64 (fun _ => counterType) 0
      [Mutation.call (), Mutation.call (), Mutation.reset]
      (ctorCopy 1 0 counterState)).bind (results (fun _ => counterType) 1 [(), ()])
      = some [1, 2] ∧
    (applyMutations 64 (fun _ => counterType) 0 [Mutation.call (), Mutation.call ()]
      (ctorCopy 1 0 counterState)).bind (results (fun _ => counterType) 0 [(), ()])
      = some [3, 4] := by
  decide

/-! ## C14: a copy invokes like its original -/

/-- C14 as stated fails: the wrapper at address 0 holds a `homeType` object built in
place, and invoking it returns 1.  Its copy at address 1 has the same bytes at another
address, and invoking the copy returns 0. -/
theorem copy_invokes_unlike_original :
    BoundTo 0 (homeState.mem 0) ∧
    (operatorCall (fun _ => homeType) 0 (5 : Int) homeState).map Prod.fst = some 1 ∧
    operatorBool ((ctorCopy 1 0 homeState).mem 1) = true ∧
    (operatorCall (fun _ => homeType) 1 (5 : Int) (ctorCopy 1 0 homeState)).map Prod.fst
      = some 0 := by
  decide

/-- C14 amended: for every wrapper `w` at `x` bound to an accepted type `c` and every
argument `a`, the wrapper copy-constructed from `w` at `this` is bound to `c` (it
converts to true and carries the bytes and the pointers of `w`), and invoking it on
`a` returns a result: what the type's call returns on the bytes of `w` at the address
of the copy.  That is the result of invoking `w` on `a` whenever the call returns at
the address of the copy what it returns at the address of `w`, as it does for every
type that does not read its own address. -/
theorem copy_invokes_like_original {W Args R : Type} (Γ : TypeId → Callable W Args R)
    (this x : Addr) (c : TypeId) (k : (Γ c).RC → R) (a : Args) (s : State W)
    (hb : BoundTo c (s.mem x)) (hk : (Γ c).conv = some k) :
    operatorBool ((ctorCopy this x s).mem this) = true ∧
    BoundTo c ((ctorCopy this x s).mem this) ∧
    (operatorCall Γ this a (ctorCopy this x s)).map Prod.fst
      = some (k ((Γ c).call this (s.mem x).target_ a s.world).1) ∧
    (((Γ c).call this (s.mem x).target_ a s.world).1
        = ((Γ c).call x (s.mem x).target_ a s.world).1 →
      (operatorCall Γ this a (ctorCopy this x s)).map Prod.fst
        = (operatorCall Γ x a s).map Prod.fst) := by
  have hbool : operatorBool (s.mem x) = true := by simp [operatorBool, hb.1]
  have hm : (ctorCopy this x s).mem this = s.mem x := ctorCopy_mem_this this x s hbool
  have h1 := operatorCall_of_bound Γ this a (ctorCopy this x s) c k hk
    (by rw [hm]; exact hb.1)
  have h2 := operatorCall_of_bound Γ x a s c k hk hb.1
  rw [hm, ctorCopy_world] at h1
  refine ⟨?_, ?_, h1, ?_⟩
  · rw [hm]; exact hbool
  · rw [hm]; exact hb
  · intro hr
    rw [h1, h2, hr]

/-- Witness for C14 amended: the wrapper of `test.cpp` holding `Functor` returns 12 on
6, and so does its copy at address 1. -/
theorem copy_invokes_like_original_witness :
    operatorBool ((ctorCopy 1 0 functorState).mem 1) = true ∧
    BoundTo 0 ((ctorCopy 1 0 functorState).mem 1) ∧
    (operatorCall (fun _ => functorType) 1 (6 : Int) (ctorCopy 1 0 functorState)).map
        Prod.fst
      = (operatorCall (fun _ => functorType) 0 (6 : Int) functorState).map Prod.fst :=
  have h := copy_invokes_like_original (fun _ => functorType) 1 0 0 id 6 functorState
    (by decide) rfl
  ⟨h.1, h.2.1, h.2.2.2 rfl⟩

/-- The scenario of C14 evaluated: the original and the copy both return 12 on 6. -/
theorem test_functor_copy :
    (operatorCall (fun _ => functorType) 0 (6 : Int) functorState).map Prod.fst = some 12 ∧
    (operatorCall (fun _ => functorType) 1 (6 : Int) (ctorCopy 1 0 functorState)).map
        Prod.fst = some 12 := by
  decide

/-! ## C15: empty construction -/

/-- C15: a wrapper produced at `this` by the default constructor or by the constructor
from `nullptr` has a null invoker and a null destroyer, converts to false, and its
destructor runs no destroyer: it leaves the state, the world and the record of calls
as they are. -/
theorem empty_construction {W Args R : Type} (Γ : TypeId → Callable W Args R)
    (this : Addr) (s : State W) :
    IsEmpty ((ctorDefault this s).mem this) ∧
    operatorBool ((ctorDefault this s).mem this) = false ∧
    dtor Γ this (ctorDefault this s) = ctorDefault this s ∧
    (dtor Γ this (ctorDefault this s)).log = s.log ∧
    IsEmpty ((ctorNull this s).mem this) ∧
    operatorBool ((ctorNull this s).mem this) = false ∧
    dtor Γ this (ctorNull this s) = ctorNull this s ∧
    (dtor Γ this (ctorNull this s)).log = s.log := by
  have hd : ((ctorDefault this s).mem this).destroyer_ = none := by
    simp [ctorDefault, State.setInvoker, State.setDestroyer]
  have hi : ((ctorDefault this s).mem this).invoker_ = none := by
    simp [ctorDefault, State.setInvoker, State.setDestroyer]
  have hd2 : ((ctorNull this s).mem this).destroyer_ = none := by
    simp [ctorNull, State.setInvoker, State.setDestroyer]
  have hi2 : ((ctorNull this s).mem this).invoker_ = none := by
    simp [ctorNull, State.setInvoker, State.setDestroyer]
  refine ⟨⟨hi, hd⟩, by simp [operatorBool, hi], dtor_of_null Γ this _ hd, ?_,
    ⟨hi2, hd2⟩, by simp [operatorBool, hi2], dtor_of_null Γ this _ hd2, ?_⟩
  · rw [dtor_of_null Γ this _ hd]; rfl
  · rw [dtor_of_null Γ this _ hd2]; rfl

/-! ## C16: move assignment transfers the target -/

/-- The scenario of C16 evaluated, with `w2` bound beforehand (to a second value,
buffer 3): after `w2 = std::move(w1)` a call of `w2` on 5 returns 5, and the one
destroyer call is for the previous target of `w2`. -/
theorem test_move_assignment :
    ((ctorCallable 64 ownerΓ 0 10 [1] 2 boundState).map
      (fun s => (assignMove ownerΓ 2 0 1 s).log))
      = some [Event.copied 0 0, Event.copied 0 2, Event.destroyed 0 1 [3]] ∧
    ((ctorCallable 64 ownerΓ 0 10 [1] 2 boundState).bind
      (fun s => operatorCall ownerΓ 2 (5 : Int) (assignMove ownerΓ 2 0 1 s))).map Prod.fst
      = some (some 5) := by
  decide

/-! ## C17: no call through a null pointer under the invariant -/

/-- C17: for every wrapper state in which the two pointers are both null or both
non-null, the null assignment (which tests `invoker_` and calls `destroyer_`) is
defined, that is, it calls no null pointer; the destructor calls `destroyer_` only
after testing it, so its guarded call is defined; the emptiness check is true exactly
when the destructor runs a destroyer; and an invocation calls `invoke<c>` for the
non-null invoker exactly when the emptiness check is true, while with a false check
it would call a null pointer. -/
theorem no_null_pointer_call {W Args R : Type} (Γ : TypeId → Callable W Args R)
    (this : Addr) (s : State W) (h : BothOrNeither (s.mem this)) :
    (assignNull Γ this s).isSome = true ∧
    (if (s.mem this).destroyer_.isSome then callDestroyer Γ this s else some s)
      = some (dtor Γ this s) ∧
    (operatorBool (s.mem this) = true ↔ (s.mem this).destroyer_.isSome = true) ∧
    (operatorBool (s.mem this) = true ↔
      destroyCount (dtor Γ this s).log = destroyCount s.log + 1) ∧
    (operatorBool (s.mem this) = false ↔ dtor Γ this s = s) ∧
    (operatorBool (s.mem this) = true ↔
      ∃ c, (s.mem this).invoker_ = some c ∧
        ∀ a : Args, operatorCall Γ this a s
          = (invoke Γ c this (s.mem this).target_ a s.world).map
              (fun r => (r.1, { s.setTarget this r.2.1 with world := r.2.2 }))) ∧
    (operatorBool (s.mem this) = false → ∀ a : Args, operatorCall Γ this a s = none) := by
  unfold BothOrNeither at h
  cases hi : (s.mem this).invoker_ with
  | none =>
    have hd : (s.mem this).destroyer_ = none := by
      rw [hi] at h
      cases hd : (s.mem this).destroyer_ with
      | none => rfl
      | some d => rw [hd] at h; simp at h
    have hdt : dtor Γ this s = s := dtor_of_null Γ this s hd
    refine ⟨by simp [assignNull, hi], by simp [hd, hdt], by simp [operatorBool, hi, hd],
      by simp [operatorBool, hi, hdt], by simp [operatorBool, hi, hdt],
      by simp [operatorBool, hi], ?_⟩
    intro _ a
    simp [operatorCall, hi]
  | some c =>
    obtain ⟨d, hd⟩ : ∃ d, (s.mem this).destroyer_ = some d := by
      rw [hi] at h
      cases hd : (s.mem this).destroyer_ with
      | none => rw [hd] at h; simp at h
      | some d => exact ⟨d, rfl⟩
    have hlog := dtor_log_of_bound Γ this s d hd
    have hne : dtor Γ this s ≠ s := by
      intro he
      have h1 := congrArg (fun t => t.log.length) he
      simp [hlog] at h1
    refine ⟨by simp [assignNull, hi, callDestroyer, hd], by simp [hd, callDestroyer, dtor],
      by simp [operatorBool, hi, hd],
      by simp [operatorBool, hi, hlog, destroyCount_append, destroyCount],
      by simp [operatorBool, hi, hne], ?_, by simp [operatorBool, hi]⟩
    simp only [operatorBool, hi, Option.isSome_some, true_iff]
    exact ⟨c, rfl, fun a => by simp [operatorCall, hi]⟩

/-- Witness for C17: the bound wrapper of `boundState`. -/
theorem no_null_pointer_call_witness :
    (assignNull ownerΓ 0 boundState).isSome = true ∧
    (operatorBool (boundState.mem 0) = true ↔
      (boundState.mem 0).destroyer_.isSome = true) :=
  have h := @no_null_pointer_call Heap Int (Option Int) ownerΓ 0 boundState (by decide)
  ⟨h.1, h.2.2.1⟩

/-- Outside the invariant the null assignment does call a null pointer: a non-null
invoker with a null destroyer. -/
theorem test_null_call_outside_invariant :
    ¬ BothOrNeither (staleState.mem 0) ∧ (assignNull ownerΓ 0 staleState).isSome = false := by
  decide

/-! ## C18: copy assignment, the source and the old destination target -/

/-- C18: for every wrapper `w1` at `x` bound to a type `c` and every other wrapper
`w2` at `this` that satisfies the state invariant, after `w2 = w1` the three members
of `w1` are unchanged, `w2` carries the invoker and the destroyer of `w1`, and the
only destroyer call is one call, on the temporary, for the previous target of `w2`
when `w2` was bound, none when it was empty; no destroyer has run on the slot of
`w1`. -/
theorem copy_assignment_frame {W Args R : Type} (Γ : TypeId → Callable W Args R)
    (this x tmp : Addr) (c : TypeId) (s : State W)
    (hb : BoundTo c (s.mem x)) (hinv : Inv (s.mem this))
    (hxt : x ≠ this) (htt : tmp ≠ this) (htx : tmp ≠ x) :
    (assignCopy Γ this x tmp s).mem x = s.mem x ∧
    ((assignCopy Γ this x tmp s).mem this).invoker_ = (s.mem x).invoker_ ∧
    ((assignCopy Γ this x tmp s).mem this).destroyer_ = (s.mem x).destroyer_ ∧
    BoundTo c ((assignCopy Γ this x tmp s).mem this) ∧
    (assignCopy Γ this x tmp s).log = s.log ++
      (match (s.mem this).invoker_ with
       | none => []
       | some d => [Event.destroyed d tmp (s.mem this).target_]) ∧
    destroyCount (assignCopy Γ this x tmp s).log
      = destroyCount s.log + (if operatorBool (s.mem this) then 1 else 0) ∧
    (∀ (d : TypeId) (b : Bytes), Event.destroyed d x b ∈ (assignCopy Γ this x tmp s).log →
      Event.destroyed d x b ∈ s.log) := by
  have hbool : operatorBool (s.mem x) = true := by simp [operatorBool, hb.1]
  have hmx : (assignCopy Γ this x tmp s).mem x = s.mem x := by
    unfold assignCopy
    rw [dtor_mem, swap_mem_other tmp this x _ (Ne.symm htx) hxt,
      ctorCopy_mem_other tmp x x s (Ne.symm htx)]
  have hmt : (assignCopy Γ this x tmp s).mem this = s.mem x := by
    unfold assignCopy
    rw [dtor_mem, swap_mem_x tmp this _ htt, ctorCopy_mem_this tmp x s hbool]
  have htmp : (swap tmp this (ctorCopy tmp x s)).mem tmp = s.mem this := by
    rw [swap_mem_this tmp this _ htt, ctorCopy_mem_other tmp x this s (Ne.symm htt)]
  unfold Inv at hinv
  have hlog : (assignCopy Γ this x tmp s).log = s.log ++
      (match (s.mem this).invoker_ with
       | none => []
       | some d => [Event.destroyed d tmp (s.mem this).target_]) := by
    cases hi : (s.mem this).invoker_ with
    | none =>
      have hd : (s.mem this).destroyer_ = none := by rw [← hinv, hi]
      unfold assignCopy
      rw [dtor_of_null Γ tmp _ (by rw [htmp]; exact hd)]
      simp [swap_log, ctorCopy_log]
    | some d =>
      have hd : (s.mem this).destroyer_ = some d := by rw [← hinv, hi]
      unfold assignCopy
      rw [dtor_log_of_bound Γ tmp _ d (by rw [htmp]; exact hd)]
      simp [swap_log, ctorCopy_log, htmp]
  refine ⟨hmx, by rw [hmt], by rw [hmt], by rw [hmt]; exact hb, hlog, ?_, ?_⟩
  · rw [hlog]
    cases hi : (s.mem this).invoker_ with
    | none => simp [operatorBool, hi]
    | some d => simp [operatorBool, hi, destroyCount_append, destroyCount]
  · intro d b hmem
    rw [hlog] at hmem
    cases hi : (s.mem this).invoker_ with
    | none => simpa [hi] using hmem
    | some e =>
      simp only [hi, List.mem_append, List.mem_singleton] at hmem
      rcases hmem with hmem | hmem
      · exact hmem
      · injection hmem with _ h2 _
        exact absurd h2.symm htx

/-- Witness for C18: `w1` is the bound wrapper of `boundState` at address 0, `w2` is
default-constructed at address 2, and the temporary is at address 1. -/
theorem copy_assignment_frame_witness :
    (assignCopy ownerΓ 2 0 1 (ctorDefault 2 boundState)).mem 0
      = (ctorDefault 2 boundState).mem 0 ∧
    BoundTo 0 ((assignCopy ownerΓ 2 0 1 (ctorDefault 2 boundState)).mem 2) ∧
    destroyCount (assignCopy ownerΓ 2 0 1 (ctorDefault 2 boundState)).log
      = destroyCount (ctorDefault 2 boundState).log
        + (if operatorBool ((ctorDefault 2 boundState).mem 2) then 1 else 0) :=
  have h := copy_assignment_frame ownerΓ 2 0 1 0 (ctorDefault 2 boundState)
    (by decide) (by decide) (by decide) (by decide) (by decide)
  ⟨h.1, h.2.2.2.1, h.2.2.2.2.2.1⟩

/-- The scenario of C18 evaluated, with `w2` bound beforehand (to a second value,
buffer 3): after `w2 = w1` the one destroyer call is for the previous target of `w2`,
on the temporary at address 1. -/
theorem test_copy_assignment :
    ((ctorCallable 64 ownerΓ 0 10 [1] 2 boundState).map
      (fun s => (assignCopy ownerΓ 2 0 1 s).log))
      = some [Event.copied 0 0, Event.copied 0 2, Event.destroyed 0 1 [3]] ∧
    ((ctorCallable 64 ownerΓ 0 10 [1] 2 boundState).map
      (fun s => (assignCopy ownerΓ 2 0 1 s).mem 2))
      = some { target_ := [2], invoker_ := some 0, destroyer_ := some 0 } := by
  decide

end FastFunctionModel
